import Mathlib

/-!
Verification development for the device-os-flash-util repository.

The definitions below are shallow embeddings of the JavaScript sources:
pure functions become Lean functions, stateful loops become explicit state
passing, fallible operations return `Except`, and the behaviour of external
collaborators (the GitHub release API, the semver library, the binary module
parser, subprocesses and USB devices) is passed in as explicit parameters or
oracles.  Each section names the source file and function it embeds.
-/

namespace DeviceOsFlashUtil

/-! ## Basic data model (platform.js, module.js / dfu_flasher.js) -/

/-- Firmware module types, mirroring the ModuleType table in platform.js. -/
inductive ModuleType where
  | userPart
  | systemPart
  | bootloader
  | radioStack
  | ncpFirmware
deriving DecidableEq

/-- Storage types, mirroring the StorageType table in device.js. -/
inductive StorageType where
  | internalFlash
  | externalFlash
  | filesystem
  | other
deriving DecidableEq

/-- A parsed firmware module binary, mirroring the record built by
ModuleCache._parseModuleBinary in dfu_flasher.js (the fields relevant to the
verified properties). -/
structure Module where
  platformId : Nat
  type : ModuleType
  index : Nat
  version : Nat
  fileSize : Nat
  file : String
  storage : StorageType
  encrypted : Bool
  isAsset : Bool := false
deriving DecidableEq

/-- Lower-case an ASCII character (the case folding performed by the /i regex
flag on the ASCII file names involved). -/
def lcChar (c : Char) : Char :=
  if 65 ≤ c.toNat ∧ c.toNat ≤ 90 then Char.ofNat (c.toNat + 32) else c

/-- Whether the second character list occurs at the start of the first. -/
def listStartsWith : List Char → List Char → Bool
  | _, [] => true
  | [], _ :: _ => false
  | a :: as, b :: bs => a == b && listStartsWith as bs

/-- Whether the second character list occurs anywhere inside the first. -/
def listContainsSub : List Char → List Char → Bool
  | [], pat => listStartsWith [] pat
  | s@(_ :: rest), pat => listStartsWith s pat || listContainsSub rest pat

/-- Case-insensitive substring test: the embedding of a JavaScript
str.match(/pat/i) check on ASCII strings. -/
def containsCI (s pat : String) : Bool :=
  listContainsSub (s.data.map lcChar) (pat.data.map lcChar)

/-- String tag of a module type, as used when building Map keys in
ModuleCache._parseModuleBinaries. -/
def typeTag : ModuleType → String
  | .userPart => "user_part"
  | .systemPart => "system_part"
  | .bootloader => "bootloader"
  | .radioStack => "radio_stack"
  | .ncpFirmware => "ncp_firmware"

/-! ## C1: collision resolution in ModuleCache._parseModuleBinaries
(dfu_flasher.js lines 331-366).  The platform catalog's id-to-name map is a
parameter `platformName`. -/

/-- The deduplication key platform.name + ":" + m.type + ":" + m.index. -/
def moduleKey (platformName : Nat → String) (m : Module) : String :=
  platformName m.platformId ++ ":" ++ typeTag m.type ++ ":" ++ toString m.index

/-- The isTinker / hasTinker test of the collision branch: a user-part whose
file matches /tinker/i. -/
def isTinkerUserPart (m : Module) : Bool :=
  m.type == ModuleType.userPart && containsCI m.file "tinker"

/-- Mirrors the collision branch of _parseModuleBinaries: given the module m2
already stored under a key and a newly parsed module m with the same key,
returns true exactly when the code hits a continue statement (keeping m2). -/
def keepExisting (m2 m : Module) : Bool :=
  let isT := isTinkerUserPart m
  let hasT := isTinkerUserPart m2
  if hasT && !isT then true
  else if hasT || !isT then
    if m2.version != m.version then decide (m2.version > m.version)
    else decide (m2.fileSize < m.fileSize)
  else false

/-- The module kept after a key collision between the stored module m2 and the
newly parsed module m. -/
def resolveCollision (m2 m : Module) : Module :=
  if keepExisting m2 m then m2 else m

/-- One step of the _parseModuleBinaries fold: insert a parsed module into the
keyed map (modelled as an association list in key insertion order; a JS Map
keeps the original position of a key when its value is replaced). -/
def insertParsed (platformName : Nat → String) (acc : List (String × Module))
    (m : Module) : List (String × Module) :=
  let key := moduleKey platformName m
  match acc.lookup key with
  | none => acc ++ [(key, m)]
  | some m2 =>
    if keepExisting m2 m then acc
    else acc.map (fun e => if e.1 = key then (key, m) else e)

/-- The outcome of parsing one candidate .bin file.  The binary parser is an
external library (binary-version-reader), so a file's content is abstracted by
its parse outcome: none models a file the parser rejects (which
_parseModuleBinaries skips with a warning). -/
abbrev BinContent := Option Module

/-- ModuleCache._parseModuleBinary: attach the file path to the parse outcome
of the file's content. -/
def parseModuleBinary (file : String) (c : BinContent) : Option Module :=
  c.map (fun m => { m with file := file })

/-- One file of the _parseModuleBinaries loop: skip it when parsing fails,
otherwise insert the parsed module into the keyed map. -/
def parseInsertStep (platformName : Nat → String)
    (acc : List (String × Module)) (fc : String × BinContent) :
    List (String × Module) :=
  match parseModuleBinary fc.1 fc.2 with
  | none => acc
  | some m => insertParsed platformName acc m

/-- ModuleCache._parseModuleBinaries: parse every file of a directory listing
(in listing order), deduplicate by key, and return the surviving modules in
key insertion order. -/
def parseModuleBinaries (platformName : Nat → String)
    (files : List (String × BinContent)) : List Module :=
  (files.foldl (parseInsertStep platformName) []).map Prod.snd

/-! ## C10: App._filterModules (app.js lines 275-313) -/

/-- The module-type filter flags taken from the parsed command line. -/
structure FilterArgs where
  system : Bool
  user : Bool
  bootloader : Bool
  ncp : Bool
  radio : Bool
  noSystem : Bool
  noUser : Bool
  noBootloader : Bool
  noNcp : Bool
  noRadio : Bool
deriving DecidableEq

/-- Object.values(ModuleType) in declaration order (platform.js). -/
def allModuleTypes : List ModuleType :=
  [ModuleType.userPart, ModuleType.systemPart, ModuleType.bootloader,
   ModuleType.radioStack, ModuleType.ncpFirmware]

/-- The set of surviving module types computed by _filterModules:
whitelist (system, user, bootloader, ncp, radio in that order), defaulting to
every type when no whitelist flag is given, then blacklist deletions. -/
def filterTypes (a : FilterArgs) : List ModuleType :=
  let types : List ModuleType := []
  let types := if a.system then types ++ [ModuleType.systemPart] else types
  let types := if a.user then types ++ [ModuleType.userPart] else types
  let types := if a.bootloader then types ++ [ModuleType.bootloader] else types
  let types := if a.ncp then types ++ [ModuleType.ncpFirmware] else types
  let types := if a.radio then types ++ [ModuleType.radioStack] else types
  let types := if types.isEmpty then allModuleTypes else types
  let types := if a.noSystem then types.filter (· ≠ ModuleType.systemPart) else types
  let types := if a.noUser then types.filter (· ≠ ModuleType.userPart) else types
  let types := if a.noBootloader then types.filter (· ≠ ModuleType.bootloader) else types
  let types := if a.noNcp then types.filter (· ≠ ModuleType.ncpFirmware) else types
  let types := if a.noRadio then types.filter (· ≠ ModuleType.radioStack) else types
  types

/-- App._filterModules: keep the modules whose type survives the flag set. -/
def filterModules (a : FilterArgs) (modules : List Module) : List Module :=
  modules.filter (fun m => (filterTypes a).contains m.type)

/-- The whitelist-then-blacklist reading of the filter, written from the
claim: a type survives when it is whitelisted (or no whitelist flag is given)
and not blacklisted. -/
def specKeepType (a : FilterArgs) (t : ModuleType) : Bool :=
  let whitelisted :=
    (a.system && t == ModuleType.systemPart) ||
    (a.user && t == ModuleType.userPart) ||
    (a.bootloader && t == ModuleType.bootloader) ||
    (a.ncp && t == ModuleType.ncpFirmware) ||
    (a.radio && t == ModuleType.radioStack)
  let anyWhitelist := a.system || a.user || a.bootloader || a.ncp || a.radio
  let blacklisted :=
    (a.noSystem && t == ModuleType.systemPart) ||
    (a.noUser && t == ModuleType.userPart) ||
    (a.noBootloader && t == ModuleType.bootloader) ||
    (a.noNcp && t == ModuleType.ncpFirmware) ||
    (a.noRadio && t == ModuleType.radioStack)
  (!anyWhitelist || whitelisted) && !blacklisted

/-! ## C8: reset throttling in OpenOcdDevice (openocd.js lines 475, 825-828) -/

/-- The constant DELAY_AFTER_RESET from openocd.js line 475. -/
def DELAY_AFTER_RESET : Nat := 1000

/-- OpenOcdDevice.reset issues the reset command and then waits
DELAY_AFTER_RESET milliseconds: given the invocation time it returns the
command timestamp and the completion time. -/
def resetInvocation (t : Nat) : Nat × Nat :=
  (t, t + DELAY_AFTER_RESET)

/-- Timestamps of n back-to-back reset invocations starting at time t: each
next invocation starts exactly when the previous one returns (the earliest the
per-device serialization allows). -/
def resetTimes (t : Nat) : Nat → List Nat
  | 0 => []
  | n + 1 => (resetInvocation t).1 :: resetTimes (resetInvocation t).2 n

/-- A list of reset invocation times is a valid per-device schedule when each
invocation starts no earlier than the previous one returned (operations on a
single device are strictly serialized). -/
def validResetSchedule (ts : List Nat) : Prop :=
  ts.Chain' (fun a b => (resetInvocation a).2 ≤ b)

/-! ## C7: DfuDevice.writeToFlash (dfu.js lines 60-98) -/

/-- Observable steps of DfuDevice.writeToFlash. -/
inductive DfuEvent where
  | closeHandle
  | spawnDfuUtil (args : List String) (timeoutMs : Nat)
  | reopenHandle
deriving DecidableEq

/-- Result of a subprocess run that exited on its own (util.js execCommand
resolves with this record; timeouts, signals and spawn errors reject
instead). -/
structure ExecResult where
  exitCode : Int
  stdout : String
  stderr : String
deriving DecidableEq

/-- The constant FLASH_TIMEOUT from dfu.js line 10. -/
def FLASH_TIMEOUT : Nat := 2 * 60 * 1000

/-- util.js toUInt32Hex. -/
def toUInt32Hex (n : Nat) : String :=
  let s := (Nat.toDigits 16 n).asString
  "0x" ++ String.mk (List.replicate (8 - s.length) '0') ++ s

/-- The dfu-util argument vector built by writeToFlash. -/
def dfuUtilArgs (vidPid idArg idVal : String) (alt : Nat) (address : Nat)
    (file : String) : List String :=
  ["-d", vidPid, idArg, idVal, "-a", toString alt, "-s", toUInt32Hex address,
   "-D", file]

/-- DfuDevice.writeToFlash: the event trace and outcome, given the platform's
alt setting for the requested storage, whether the device handle is open, and
the subprocess outcome (an oracle for the external dfu-util run; error models
execCommand rejecting on timeout, signal or spawn failure). -/
def writeToFlash (altSetting : Option Nat) (devOpen : Bool)
    (vidPid idArg idVal : String) (address : Nat) (file : String)
    (exec : Except String ExecResult) : List DfuEvent × Except String Unit :=
  match altSetting with
  | none => ([], Except.error "Unsupported storage")
  | some alt =>
    if !devOpen then ([], Except.error "Device is not open")
    else
      let args := dfuUtilArgs vidPid idArg idVal alt address file
      match exec with
      | Except.error e =>
        ([DfuEvent.closeHandle, DfuEvent.spawnDfuUtil args FLASH_TIMEOUT],
         Except.error e)
      | Except.ok r =>
        ([DfuEvent.closeHandle, DfuEvent.spawnDfuUtil args FLASH_TIMEOUT,
          DfuEvent.reopenHandle],
         if r.exitCode != 0 then
           Except.error ("dfu-util failed:\n" ++ r.stderr)
         else Except.ok ())

/-! ## C6: App._flashDevices (app.js lines 120-156) -/

/-- The Flasher instance built for each target device (name "device_<i+1>"). -/
structure FlasherInstance where
  name : String
  device : String
deriving DecidableEq

/-- One Flasher per device, in device-list order. -/
def mkFlashers (devs : List String) : List FlasherInstance :=
  ((List.range devs.length).zip devs).map
    (fun p => { name := "device_" ++ toString (p.1 + 1), device := p.2 })

/-- Error component of an Except value. -/
def errOpt : Except String Unit → Option String
  | Except.error e => some e
  | Except.ok _ => none

/-- One completed task of App._flashDevices: record the task index and, when
the flasher failed and no earlier error was captured, capture its error. -/
def flashStep (outcome : String → Except String Unit)
    (flashers : List FlasherInstance) (acc : List Nat × Option String)
    (i : Nat) : List Nat × Option String :=
  let fl := flashers.getD i { name := "", device := "" }
  let err := match acc.2 with
    | some e0 => some e0
    | none => errOpt (outcome fl.device)
  (acc.1 ++ [i], err)

/-- App._flashDevices after creating the flashers: every task runs its
flasher, swallowing the error but recording the first one; after all tasks
complete the first recorded error, if any, is thrown.  The bounded-parallelism
pool (p-limit) is abstracted by the completion order of the tasks, a list of
indices into the flasher list; the first captured error is the first error in
completion order. -/
def flashDevices (outcome : String → Except String Unit)
    (flashers : List FlasherInstance) (order : List Nat) :
    List Nat × Except String Unit :=
  let r := order.foldl (flashStep outcome flashers) ([], none)
  (r.1, match r.2 with
    | none => Except.ok ()
    | some e => Except.error e)

/-! ## C2: release lookup in ModuleCache._downloadRelease and
ModuleCache._findDraftRelease (dfu_flasher.js lines 249-301).  The GitHub
API and the semver library are external collaborators, modelled by an
abstract tag-lookup function, the full release listing (paged in chunks of
MAX_RELEASES_PER_PAGE by the client code), and an abstract semver-equality
test. -/

/-- A GitHub release as seen by this code: its tag and draft flag. -/
structure Release where
  tagName : String
  draft : Bool
deriving DecidableEq

/-- An HTTP error from the GitHub client. -/
structure HttpError where
  status : Nat
  msg : String
deriving DecidableEq

/-- The GitHub API surface used by the release lookup: lookup by tag, and the
full release listing which listReleases serves in pages. -/
structure GitHubApi where
  byTag : String → Except HttpError Release
  releases : List Release

/-- Failures of the release-location step. -/
inductive LocateError where
  | http (e : HttpError)
  | notFound (version : String)
deriving DecidableEq

/-- The constant MAX_RELEASES_PER_PAGE from dfu_flasher.js line 47. -/
def MAX_RELEASES_PER_PAGE : Nat := 100

/-- Strip one leading v from a tag (the startsWith check followed by
slice(1)). -/
def stripV (s : String) : String :=
  match s.data with
  | 'v' :: rest => String.mk rest
  | _ => s

/-- The per-release test of _findDraftRelease: a truthy tag, the draft flag,
and semver equality of the v-stripped tag with the requested version. -/
def isDraftMatch (semverEq : String → String → Bool) (version : String)
    (r : Release) : Bool :=
  r.tagName != "" && r.draft && semverEq (stripV r.tagName) version

/-- The page loop of _findDraftRelease: fetch pages of
MAX_RELEASES_PER_PAGE releases until an empty page, returning the first
matching draft.  The loop always reaches the first empty page, so the fuel
(one more than the listing length) never runs out. -/
def findDraftGo (semverEq : String → String → Bool) (version : String) :
    Nat → List Release → Option Release
  | 0, _ => none
  | fuel + 1, rest =>
    let page := rest.take MAX_RELEASES_PER_PAGE
    if page.isEmpty then none
    else
      match page.find? (isDraftMatch semverEq version) with
      | some r => some r
      | none =>
        findDraftGo semverEq version fuel (rest.drop MAX_RELEASES_PER_PAGE)

/-- ModuleCache._findDraftRelease. -/
def findDraftRelease (semverEq : String → String → Bool) (api : GitHubApi)
    (version : String) : Option Release :=
  findDraftGo semverEq version (api.releases.length + 1) api.releases

/-- The release-location phase of ModuleCache._downloadRelease: try tag
v<version>, on 404 try tag <version>, on 404 with the draft option page
through the listing for a matching draft, otherwise fail with the
release-not-found error naming the version; non-404 errors propagate. -/
def locateRelease (semverEq : String → String → Bool) (api : GitHubApi)
    (version : String) (draft : Bool) : Except LocateError Release :=
  match api.byTag ("v" ++ version) with
  | Except.ok r => Except.ok r
  | Except.error e =>
    if e.status != 404 then Except.error (LocateError.http e)
    else
      match api.byTag version with
      | Except.ok r => Except.ok r
      | Except.error e2 =>
        if e2.status != 404 then Except.error (LocateError.http e2)
        else
          match (if draft then findDraftRelease semverEq api version
                 else none) with
          | some r => Except.ok r
          | none => Except.error (LocateError.notFound version)

/-! ## C4: backfill of missing modules (dfu_flasher.js
ModuleCache._findMissingBinaries lines 135-247 and
ModuleCache._listOlderReleaseVersions lines 439-470).  The platform catalog
and the semver library are parameters; downloading an older release is an
oracle from version to its parsed module list. -/

/-- The catalog data consulted by the backfill. -/
structure PlatformRec where
  id : Nat
  name : String
  hasRadioStack : Bool
  hasNcpFirmware : Bool

/-- The missing-modules bookkeeping of _findMissingBinaries: the set of
(platform id, module type) pairs still missing (the JS Map of Sets, observed
as a set of pairs). -/
abbrev MissingSet := List (Nat × ModuleType)

/-- addMissingModule of _findMissingBinaries. -/
def addMissingModule (s : MissingSet) (pid : Nat) (t : ModuleType) :
    MissingSet :=
  if (pid, t) ∈ s then s else s ++ [(pid, t)]

/-- removeMissingModule of _findMissingBinaries: remove the pair and report
whether it was present. -/
def removeMissingModule (s : MissingSet) (pid : Nat) (t : ModuleType) :
    MissingSet × Bool :=
  if (pid, t) ∈ s then
    (s.filter (fun e => !(e == (pid, t))), true)
  else (s, false)

/-- Append a module to its platform group (the Map grouping of
_findMissingBinaries, in first-appearance order). -/
def addToGroups (groups : List (Nat × List Module)) (pid : Nat)
    (m : Module) : List (Nat × List Module) :=
  if (groups.lookup pid).isSome then
    groups.map (fun g => if g.1 = pid then (g.1, g.2 ++ [m]) else g)
  else groups ++ [(pid, [m])]

/-- The grouping of the input modules by platform id. -/
def groupByPlatform (mods : List Module) : List (Nat × List Module) :=
  mods.foldl (fun g m => addToGroups g m.platformId m) []

/-- Conditionally mark a module type missing. -/
def maybeAddMissing (cond : Bool) (s : MissingSet) (pid : Nat)
    (t : ModuleType) : MissingSet :=
  if cond then addMissingModule s pid t else s

/-- The missing-set contribution of one platform group: radio stack when the
platform has one and none was parsed, NCP firmware likewise, then user part
and bootloader unconditionally. -/
def missingStep (platforms : Nat → PlatformRec) (s : MissingSet)
    (g : Nat × List Module) : MissingSet :=
  let p := platforms g.1
  let s := maybeAddMissing (p.hasRadioStack &&
      !(g.2.any (fun m => m.type == ModuleType.radioStack)))
    s g.1 ModuleType.radioStack
  let s := maybeAddMissing (p.hasNcpFirmware &&
      !(g.2.any (fun m => m.type == ModuleType.ncpFirmware)))
    s g.1 ModuleType.ncpFirmware
  let s := maybeAddMissing
      (!(g.2.any (fun m => m.type == ModuleType.userPart)))
    s g.1 ModuleType.userPart
  maybeAddMissing (!(g.2.any (fun m => m.type == ModuleType.bootloader)))
    s g.1 ModuleType.bootloader

/-- The initial missing set, accumulated per platform in group order. -/
def computeMissing (platforms : Nat → PlatformRec)
    (groups : List (Nat × List Module)) : MissingSet :=
  groups.foldl (missingStep platforms) []

/-- One bundled-asset module: fills a missing slot and is marked is-asset
(copy semantics). -/
def assetStep (gs : List (Nat × List Module) × MissingSet) (m : Module) :
    List (Nat × List Module) × MissingSet :=
  let r := removeMissingModule gs.2 m.platformId m.type
  if r.2 then (addToGroups gs.1 m.platformId { m with isAsset := true }, r.1)
  else gs

/-- The bundled-assets pass over the parsed assets directory. -/
def addAssetModules (assetMods : List Module)
    (gs : List (Nat × List Module) × MissingSet) :
    List (Nat × List Module) × MissingSet :=
  assetMods.foldl assetStep gs

/-- The radio-stack / NCP-firmware downgrade: those missing module types are
dropped from the missing set with a warning. -/
def dropRadioNcpMissing (s : MissingSet) : MissingSet :=
  s.filter (fun e =>
    !(e.2 == ModuleType.radioStack || e.2 == ModuleType.ncpFirmware))

/-- The page loop of _listOlderReleaseVersions visits the listing page by
page (MAX_RELEASES_PER_PAGE releases each) until an empty page, collecting
every release seen. -/
def collectPagesGo : Nat → List Release → List Release
  | 0, _ => []
  | fuel + 1, rest =>
    let page := rest.take MAX_RELEASES_PER_PAGE
    if page.isEmpty then []
    else page ++ collectPagesGo fuel (rest.drop MAX_RELEASES_PER_PAGE)

/-- All releases seen by the pager. -/
def collectPages (releases : List Release) : List Release :=
  collectPagesGo (releases.length + 1) releases

/-- One release of the version-collection loop of _listOlderReleaseVersions:
a truthy tag has a leading v stripped and, when semver-valid and not yet
collected, is appended. -/
def tagVersionStep (valid : String → Bool) (acc : List String)
    (r : Release) : List String :=
  if r.tagName != "" then
    let v := stripV r.tagName
    if valid v && !(acc.contains v) then acc ++ [v] else acc
  else acc

/-- The version set collected by _listOlderReleaseVersions: truthy tags with a
leading v stripped, kept when semver-valid, deduplicated in first-insertion
order. -/
def releaseTagVersions (valid : String → Bool) (releases : List Release) :
    List String :=
  releases.foldl (tagVersionStep valid) []

/-- The constant MAX_OLDER_RELEASES_TO_CHECK from dfu_flasher.js line 46. -/
def MAX_OLDER_RELEASES_TO_CHECK : Nat := 20

/-- ModuleCache._listOlderReleaseVersions: collect the valid versions of the
listing, keep those strictly below the requested version, sort ascending by
the semver comparator and reverse into descending order. -/
def listOlderReleaseVersions (valid : String → Bool)
    (lt le : String → String → Bool) (releases : List Release)
    (version : String) : List String :=
  let versions := releaseTagVersions valid (collectPages releases)
  let versions := versions.filter (fun v => lt v version)
  (versions.mergeSort le).reverse

/-- The per-module filter of the older-release loop: skip a user part not
matching /tinker/i and a bootloader not matching /bootloader/i. -/
def olderModuleSkip (m : Module) : Bool :=
  (m.type == ModuleType.userPart && !containsCI m.file "tinker") ||
  (m.type == ModuleType.bootloader && !containsCI m.file "bootloader")

/-- One module of a probed older release: skipped by the filename filter, or
included when it fills a missing slot. -/
def probeModuleStep (acc : (List (Nat × List Module) × MissingSet) ×
    List Module) (m : Module) :
    (List (Nat × List Module) × MissingSet) × List Module :=
  if olderModuleSkip m then acc
  else
    let r := removeMissingModule acc.1.2 m.platformId m.type
    if r.2 then ((addToGroups acc.1.1 m.platformId m, r.1), acc.2 ++ [m])
    else acc

/-- Process the parsed modules of one probed older release: a non-skipped
module fills a missing slot.  Also returns the modules actually included. -/
def probeRelease (mods : List Module)
    (gs : List (Nat × List Module) × MissingSet) :
    (List (Nat × List Module) × MissingSet) × List Module :=
  mods.foldl probeModuleStep (gs, [])

/-- The older-release loop: probe the candidate versions in order, stop after
the release that left nothing missing.  Returns the groups, the remaining
missing set, the versions actually probed and the modules included. -/
def checkOlderReleases (downloadMods : String → List Module) :
    List String → List (Nat × List Module) × MissingSet →
    (List (Nat × List Module) × MissingSet) × List String × List Module
  | [], gs => (gs, [], [])
  | v :: rest, gs =>
    let r := probeRelease (downloadMods v) gs
    if r.1.2.isEmpty then (r.1, [v], r.2)
    else
      let r2 := checkOlderReleases downloadMods rest r.1
      (r2.1, v :: r2.2.1, r.2 ++ r2.2.2)

/-- The external collaborators and catalog data consulted by the backfill. -/
structure BackfillEnv where
  platforms : Nat → PlatformRec
  assetMods : List Module
  downloadMods : String → List Module
  releases : List Release
  semverValid : String → Bool
  semverLt : String → String → Bool
  semverLe : String → String → Bool

/-- The state of _findMissingBinaries when the older-release phase starts:
the grouped modules and missing set after the bundled-assets pass and the
radio-stack / NCP-firmware downgrade. -/
def backfillEntry (env : BackfillEnv) (modules : List Module) :
    List (Nat × List Module) × MissingSet :=
  let groups := groupByPlatform modules
  let missing := computeMissing env.platforms groups
  let gs :=
    if !missing.isEmpty then addAssetModules env.assetMods (groups, missing)
    else (groups, missing)
  if !gs.2.isEmpty then (gs.1, dropRadioNcpMissing gs.2) else gs

/-- The candidate versions of the older-release phase: the strictly-older
versions in descending order, capped at MAX_OLDER_RELEASES_TO_CHECK. -/
def backfillCandidates (env : BackfillEnv) (version : String) :
    List String :=
  (listOlderReleaseVersions env.semverValid env.semverLt env.semverLe
    env.releases version).take MAX_OLDER_RELEASES_TO_CHECK

/-- ModuleCache._findMissingBinaries: group, compute the missing set, consult
bundled assets, downgrade missing radio-stack and NCP-firmware entries to
warnings, then probe at most MAX_OLDER_RELEASES_TO_CHECK older releases.
Returns the final module list, the probed versions and the modules included
from older releases. -/
def findMissingBinaries (env : BackfillEnv) (version : String)
    (modules : List Module) :
    List Module × List String × List Module :=
  let gs := backfillEntry env modules
  let r :=
    if !gs.2.isEmpty then
      checkOlderReleases env.downloadMods (backfillCandidates env version) gs
    else (gs, [], [])
  (((r.1.1.map Prod.snd).flatten), r.2.1, r.2.2)

/-- One probe step, pair form, for stating where the loop stopped. -/
def probeStep (downloadMods : String → List Module)
    (gs : List (Nat × List Module) × MissingSet) (v : String) :
    List (Nat × List Module) × MissingSet :=
  (probeRelease (downloadMods v) gs).1

/-- The missing set left after probing a given list of versions in order. -/
def missingAfter (downloadMods : String → List Module)
    (gs : List (Nat × List Module) × MissingSet) (p : List String) :
    MissingSet :=
  (p.foldl (probeStep downloadMods) gs).2

/-- A missing set that only records user parts and bootloaders (the state of
the missing set when the older-release phase starts). -/
def missingTypesOk (s : MissingSet) : Prop :=
  ∀ e ∈ s, e.2 = ModuleType.userPart ∨ e.2 = ModuleType.bootloader

/-- What the older-release phase may include: a bootloader whose file matches
/bootloader/i or a user part whose file matches /tinker/i. -/
def olderIncludedOk (m : Module) : Prop :=
  (m.type = ModuleType.bootloader ∧ containsCI m.file "bootloader" = true) ∨
  (m.type = ModuleType.userPart ∧ containsCI m.file "tinker" = true)

/-! ## C9: option negotiation in the TelnetClient (unnamed part_008,
TelnetClient._negotiateOptions, _sendOptions, _receiveOption and connect).
The RFC 1143 per-option state machine is embedded directly. -/

/-- RFC 1143 option-negotiation states (part_008 OptionState). -/
inductive OptionState where
  | no
  | yes
  | wantNo
  | wantNoOpposite
  | wantYes
  | wantYesOpposite
deriving DecidableEq

/-- Telnet option-negotiation commands (part_008 Command). -/
inductive TelnetCmd where
  | will
  | wont
  | doCmd
  | dontCmd
deriving DecidableEq

/-- One negotiated option: its code, the desired state set at connect time,
and the current negotiation state. -/
structure TelnetOpt where
  code : Nat
  desired : OptionState
  current : OptionState
deriving DecidableEq

/-- Option code ECHO (RFC 857). -/
def OPT_ECHO : Nat := 1

/-- Option code SUPPRESS-GO-AHEAD (RFC 858). -/
def OPT_SGA : Nat := 3

/-- Whether an option is still mid-negotiation (current state neither YES nor
NO), the per-option test of _negotiatingOptions. -/
def isWantState (s : OptionState) : Bool :=
  !(s == OptionState.yes || s == OptionState.no)

/-- The client tracks both halves of both options: client and server ECHO and
SUPPRESS-GO-AHEAD (part_008 TelnetClient constructor). -/
structure TelnetState where
  clientEcho : TelnetOpt
  serverEcho : TelnetOpt
  clientSga : TelnetOpt
  serverSga : TelnetOpt
deriving DecidableEq

/-- TelnetClient._negotiatingOptions. -/
def negotiatingOptions (st : TelnetState) : Bool :=
  isWantState st.clientEcho.current || isWantState st.clientSga.current ||
  isWantState st.serverEcho.current || isWantState st.serverSga.current

/-- The per-option transition of _sendOptions; isClient selects the command
used to request a change (WILL/WONT for client options, DO/DONT for server
options).  Returns the updated option and the commands sent. -/
def sendOptTransition (isClient : Bool) (opt : TelnetOpt) :
    TelnetOpt × List (TelnetCmd × Nat) :=
  let enableCmd := if isClient then TelnetCmd.will else TelnetCmd.doCmd
  let disableCmd := if isClient then TelnetCmd.wont else TelnetCmd.dontCmd
  if opt.desired == OptionState.yes then
    match opt.current with
    | OptionState.no =>
      ({ opt with current := OptionState.wantYes }, [(enableCmd, opt.code)])
    | OptionState.yes => (opt, [])
    | OptionState.wantNo =>
      ({ opt with current := OptionState.wantNoOpposite }, [])
    | OptionState.wantNoOpposite => (opt, [])
    | OptionState.wantYes => (opt, [])
    | OptionState.wantYesOpposite =>
      ({ opt with current := OptionState.wantYes }, [])
  else
    match opt.current with
    | OptionState.no => (opt, [])
    | OptionState.yes =>
      ({ opt with current := OptionState.wantNo }, [(disableCmd, opt.code)])
    | OptionState.wantNo => (opt, [])
    | OptionState.wantNoOpposite =>
      ({ opt with current := OptionState.wantNo }, [])
    | OptionState.wantYes =>
      ({ opt with current := OptionState.wantYesOpposite }, [])
    | OptionState.wantYesOpposite => (opt, [])

/-- TelnetClient._sendOptions: apply the send transition to the client
options and then the server options, collecting the sent commands. -/
def sendOptions (st : TelnetState) : TelnetState × List (TelnetCmd × Nat) :=
  let (ce, o1) := sendOptTransition true st.clientEcho
  let (cs, o2) := sendOptTransition true st.clientSga
  let (se, o3) := sendOptTransition false st.serverEcho
  let (ss, o4) := sendOptTransition false st.serverSga
  ({ clientEcho := ce, serverEcho := se, clientSga := cs, serverSga := ss },
   o1 ++ o2 ++ o3 ++ o4)

/-- The per-option transition of _receiveOption for an incoming command
targeting this option.  The replies use DO/DONT for server options and
WILL/WONT for client options, matching the source. -/
def recvOptTransition (cmd : TelnetCmd) (opt : TelnetOpt) :
    TelnetOpt × List (TelnetCmd × Nat) :=
  match cmd with
  | TelnetCmd.will =>
    match opt.current with
    | OptionState.no =>
      if opt.desired == OptionState.yes then
        ({ opt with current := OptionState.yes },
         [(TelnetCmd.doCmd, opt.code)])
      else (opt, [(TelnetCmd.dontCmd, opt.code)])
    | OptionState.yes => (opt, [])
    | OptionState.wantNo => ({ opt with current := OptionState.no }, [])
    | OptionState.wantNoOpposite =>
      ({ opt with current := OptionState.yes }, [])
    | OptionState.wantYes => ({ opt with current := OptionState.yes }, [])
    | OptionState.wantYesOpposite =>
      ({ opt with current := OptionState.wantNo },
       [(TelnetCmd.dontCmd, opt.code)])
  | TelnetCmd.wont =>
    match opt.current with
    | OptionState.no => (opt, [])
    | OptionState.yes =>
      ({ opt with current := OptionState.no },
       [(TelnetCmd.dontCmd, opt.code)])
    | OptionState.wantNo => ({ opt with current := OptionState.no }, [])
    | OptionState.wantNoOpposite =>
      ({ opt with current := OptionState.wantYes },
       [(TelnetCmd.doCmd, opt.code)])
    | OptionState.wantYes => ({ opt with current := OptionState.no }, [])
    | OptionState.wantYesOpposite =>
      ({ opt with current := OptionState.no }, [])
  | TelnetCmd.doCmd =>
    match opt.current with
    | OptionState.no =>
      if opt.desired == OptionState.yes then
        ({ opt with current := OptionState.yes },
         [(TelnetCmd.will, opt.code)])
      else (opt, [(TelnetCmd.wont, opt.code)])
    | OptionState.yes => (opt, [])
    | OptionState.wantNo => ({ opt with current := OptionState.no }, [])
    | OptionState.wantNoOpposite =>
      ({ opt with current := OptionState.yes }, [])
    | OptionState.wantYes => ({ opt with current := OptionState.yes }, [])
    | OptionState.wantYesOpposite =>
      ({ opt with current := OptionState.wantNo },
       [(TelnetCmd.wont, opt.code)])
  | TelnetCmd.dontCmd =>
    match opt.current with
    | OptionState.no => (opt, [])
    | OptionState.yes =>
      ({ opt with current := OptionState.no },
       [(TelnetCmd.wont, opt.code)])
    | OptionState.wantNo => ({ opt with current := OptionState.no }, [])
    | OptionState.wantNoOpposite =>
      ({ opt with current := OptionState.wantYes },
       [(TelnetCmd.will, opt.code)])
    | OptionState.wantYes => ({ opt with current := OptionState.no }, [])
    | OptionState.wantYesOpposite =>
      ({ opt with current := OptionState.no }, [])

/-- TelnetClient._receiveOption: WILL/WONT address the server options,
DO/DONT address the client options; the matching option (by code) takes the
transition; a WILL/DO for an unsupported option is refused with DONT/WONT. -/
def receiveOption (st : TelnetState) (cmd : TelnetCmd) (code : Nat) :
    TelnetState × List (TelnetCmd × Nat) :=
  match cmd with
  | TelnetCmd.will | TelnetCmd.wont =>
    if code = st.serverEcho.code then
      let r := recvOptTransition cmd st.serverEcho
      ({ st with serverEcho := r.1 }, r.2)
    else if code = st.serverSga.code then
      let r := recvOptTransition cmd st.serverSga
      ({ st with serverSga := r.1 }, r.2)
    else if cmd == TelnetCmd.will then (st, [(TelnetCmd.dontCmd, code)])
    else (st, [])
  | TelnetCmd.doCmd | TelnetCmd.dontCmd =>
    if code = st.clientEcho.code then
      let r := recvOptTransition cmd st.clientEcho
      ({ st with clientEcho := r.1 }, r.2)
    else if code = st.clientSga.code then
      let r := recvOptTransition cmd st.clientSga
      ({ st with clientSga := r.1 }, r.2)
    else if cmd == TelnetCmd.doCmd then (st, [(TelnetCmd.wont, code)])
    else (st, [])

/-- The negotiation options of connect (part_008 DEFAULT_OPTIONS fields
enableEcho and suppressGoAhead). -/
structure ConnOpts where
  enableEcho : Bool
  suppressGoAhead : Bool
deriving DecidableEq

/-- The option state right after connect set the desired states: all current
states are NO (_resetState), server ECHO is desired when enableEcho, both
SUPPRESS-GO-AHEAD halves are desired when suppressGoAhead. -/
def initialTelnetState (o : ConnOpts) : TelnetState :=
  { clientEcho :=
      { code := OPT_ECHO, desired := OptionState.no,
        current := OptionState.no },
    serverEcho :=
      { code := OPT_ECHO,
        desired := if o.enableEcho then OptionState.yes else OptionState.no,
        current := OptionState.no },
    clientSga :=
      { code := OPT_SGA,
        desired :=
          if o.suppressGoAhead then OptionState.yes else OptionState.no,
        current := OptionState.no },
    serverSga :=
      { code := OPT_SGA,
        desired :=
          if o.suppressGoAhead then OptionState.yes else OptionState.no,
        current := OptionState.no } }

/-- The negotiation as driven by connect: the initial _sendOptions, then the
incoming option commands from the server in arrival order. -/
def runNegotiation (o : ConnOpts) (incoming : List (TelnetCmd × Nat)) :
    TelnetState :=
  incoming.foldl (fun st c => (receiveOption st c.1 c.2).1)
    (sendOptions (initialTelnetState o)).1

/-- The check at the end of _negotiateOptions: both SUPPRESS-GO-AHEAD halves
must have ended up enabled, otherwise the thrown error fails connect. -/
def negotiationResult (st : TelnetState) : Except String Unit :=
  if !(st.clientSga.current == OptionState.yes) ||
     !(st.serverSga.current == OptionState.yes) then
    Except.error "Failed to enable SUPPRESS-GO-AHEAD option"
  else Except.ok ()

/-- The phase connect reaches after option negotiation completes: prompt
handling (the _login call), or failure with the negotiation error. -/
inductive ConnectPhase where
  | promptHandling
  | failed (msg : String)
deriving DecidableEq

/-- Outcome of connect once negotiation has completed on the given incoming
commands. -/
def connectAfterNegotiation (o : ConnOpts)
    (incoming : List (TelnetCmd × Nat)) : ConnectPhase :=
  match negotiationResult (runNegotiation o incoming) with
  | Except.error e => ConnectPhase.failed e
  | Except.ok _ => ConnectPhase.promptHandling

/-- A draft release used as a concrete test input. -/
def exDraftRelease : Release :=
  { tagName := "v1.9.0-rc.1", draft := true }

/-- A GitHub API model used as a concrete test input: both tag lookups answer
404 and the draft sits on the second page of the listing. -/
def exGitHubApi : GitHubApi :=
  { byTag := fun _ => Except.error { status := 404, msg := "Not Found" },
    releases :=
      (List.replicate 150 ({ tagName := "v0.0.0", draft := false } :
        Release)) ++ [exDraftRelease] }

/-- A non-tinker boron user-part binary, used as a concrete test input. -/
def exUserPartPlain : Module :=
  { platformId := 13,
    type := ModuleType.userPart,
    index := 1,
    version := 2000,
    fileSize := 100,
    file := "a/boron-user.bin",
    storage := StorageType.internalFlash,
    encrypted := false }

/-- A tinker boron user-part binary with a lower version, used as a concrete
test input. -/
def exUserPartTinker : Module :=
  { platformId := 13,
    type := ModuleType.userPart,
    index := 1,
    version := 1500,
    fileSize := 90,
    file := "b/tinker-boron.bin",
    storage := StorageType.internalFlash,
    encrypted := false }

/-! ## C5: the per-device flasher (index.js Flasher.run lines 145-172,
Flasher._flashModules lines 174-240, Flasher._updateModules lines 242-299).
Device operations are fallible; an oracle indexed by operation count decides
success, a second oracle decides the resetPending flag of a successful
update-request flash.  Each operation is recorded as a trace event carrying
its outcome. -/

/-- Observable steps of a flashing run.  The dev-prefixed events belong to
the direct phase on the primary transport; the ota-prefixed events belong to
the update-request phase. -/
inductive FEvent where
  | devOpen (ok : Bool)
  | devPrepare (ok : Bool)
  | write (m : Module) (ok : Bool)
  | skipEncrypted (m : Module)
  | devReset (ok : Bool)
  | devClose (ok : Bool)
  | otaOpen (ok : Bool)
  | otaPrepare (ok : Bool)
  | otaFlash (m : Module) (ok : Bool) (resetPending : Bool)
      (shifted : Bool)
  | otaReset (ok : Bool)
  | otaClose (ok : Bool)
deriving DecidableEq

/-- Outcome of one phase of the flasher. -/
inductive FlashOutcome where
  | ok
  | error
  | outOfFuel
deriving DecidableEq

/-- The encrypted-module policy check: the platform marks the slot
(type, index) as required-encrypted and the module is not encrypted. -/
def encSkip (enc : List (ModuleType × Nat)) (m : Module) : Bool :=
  (enc.any (fun e => e.1 == m.type && e.2 == m.index)) && !m.encrypted

/-- Result of one iteration of a flashing loop body (the try block): either
the body ran to the end of the iteration, or an operation threw.  Both carry
the events, the updated module list, reset flag, and oracle index; a throw
also records whether the device handle is open when the catch runs. -/
inductive IterResult where
  | stepped (ev : List FEvent) (mods : List Module) (needReset : Bool)
      (devOpen : Bool) (k : Nat)
  | thrown (ev : List FEvent) (mods : List Module) (needReset : Bool)
      (isOpen : Bool) (k : Nat)
deriving DecidableEq

/-- The events of an iteration result. -/
def iterEvents : IterResult → List FEvent
  | IterResult.stepped ev _ _ _ _ => ev
  | IterResult.thrown ev _ _ _ _ => ev

/-- The remaining modules of an iteration result. -/
def iterMods : IterResult → List Module
  | IterResult.stepped _ mods _ _ _ => mods
  | IterResult.thrown _ mods _ _ _ => mods

/-- Events that neither write, flash nor skip a module. -/
def noModEvent : FEvent → Bool
  | FEvent.write _ _ => false
  | FEvent.skipEncrypted _ => false
  | FEvent.otaFlash _ _ _ _ => false
  | _ => true

/-- The tail of a direct-phase iteration: the reset step. -/
def flashIterFinish (oracle : Nat → Bool) (mods : List Module)
    (needReset : Bool) (k : Nat) (ev : List FEvent) : IterResult :=
  if needReset then
    if oracle k then
      IterResult.stepped (ev ++ [FEvent.devReset true]) mods false true
        (k + 1)
    else
      IterResult.thrown (ev ++ [FEvent.devReset false]) mods needReset true
        (k + 1)
  else IterResult.stepped ev mods needReset true k

/-- The head-module step of a direct-phase iteration: skip by the encryption
policy, or write and possibly reset. -/
def flashIterDo (enc : List (ModuleType × Nat)) (oracle : Nat → Bool)
    (m : Module) (rest : List Module) (needReset : Bool) (k : Nat)
    (ev : List FEvent) : IterResult :=
  if encSkip enc m then
    IterResult.stepped (ev ++ [FEvent.skipEncrypted m]) rest needReset
      true k
  else if oracle k then
    let needReset2 := if rest.isEmpty then true else needReset
    flashIterFinish oracle rest needReset2 (k + 1)
      (ev ++ [FEvent.write m true])
  else
    IterResult.thrown (ev ++ [FEvent.write m false]) (m :: rest)
      needReset true (k + 1)

/-- The module section of a direct-phase iteration, with the device open. -/
def flashIterModule (enc : List (ModuleType × Nat)) (oracle : Nat → Bool)
    (mods : List Module) (needReset : Bool) (prepare : Bool) (k : Nat)
    (ev : List FEvent) : IterResult :=
  match mods with
  | [] => flashIterFinish oracle [] needReset k ev
  | m :: rest =>
    if prepare then
      if oracle k then
        flashIterDo enc oracle m rest needReset (k + 1)
          (ev ++ [FEvent.devPrepare true])
      else
        IterResult.thrown (ev ++ [FEvent.devPrepare false]) (m :: rest)
          needReset true (k + 1)
    else flashIterDo enc oracle m rest needReset k ev

/-- One iteration of the _flashModules try block. -/
def flashIter (enc : List (ModuleType × Nat)) (oracle : Nat → Bool)
    (mods : List Module) (needReset isOpen : Bool) (k : Nat) : IterResult :=
  if isOpen then flashIterModule enc oracle mods needReset false k []
  else if oracle k then
    flashIterModule enc oracle mods needReset true (k + 1)
      [FEvent.devOpen true]
  else IterResult.thrown [FEvent.devOpen false] mods needReset false (k + 1)

/-- The catch block of _flashModules: close the device when open (a close
failure propagates), then rethrow when no retries remain, otherwise consume a
retry and resume.  Returns the events and, when resuming, the remaining
retries and oracle index. -/
def flashCatch (closeEvent : Bool → FEvent) (oracle : Nat → Bool)
    (isOpen : Bool) (retries k : Nat) :
    List FEvent × Option (Nat × Nat) :=
  if isOpen then
    if oracle k then
      if retries = 0 then ([closeEvent true], none)
      else ([closeEvent true], some (retries - 1, k + 1))
    else ([closeEvent false], none)
  else
    if retries = 0 then ([], none)
    else ([], some (retries - 1, k))

/-- The _flashModules loop: events, outcome, remaining retries, next oracle
index.  Each iteration shrinks the measure retries + 2·|modules| + needReset,
so the chosen fuel never runs out. -/
def flashLoop (enc : List (ModuleType × Nat)) (oracle : Nat → Bool) :
    Nat → List Module → Bool → Bool → Nat → Nat →
    List FEvent × FlashOutcome × Nat × Nat
  | 0, _, _, _, retries, k => ([], FlashOutcome.outOfFuel, retries, k)
  | fuel + 1, mods, needReset, isOpen, retries, k =>
    if mods.isEmpty && !needReset then
      if isOpen then
        let okC := oracle k
        ([FEvent.devClose okC],
         if okC then FlashOutcome.ok else FlashOutcome.error, retries, k + 1)
      else ([], FlashOutcome.ok, retries, k)
    else
      match flashIter enc oracle mods needReset isOpen k with
      | IterResult.stepped ev mods2 needReset2 open2 k2 =>
        let r := flashLoop enc oracle fuel mods2 needReset2 open2 retries k2
        (ev ++ r.1, r.2)
      | IterResult.thrown ev mods2 needReset2 isOpen2 k2 =>
        let c := flashCatch FEvent.devClose oracle isOpen2 retries k2
        match c.2 with
        | none => (ev ++ c.1, FlashOutcome.error, retries, k2)
        | some rk =>
          let r := flashLoop enc oracle fuel mods2 needReset2 false rk.1 rk.2
          (ev ++ c.1 ++ r.1, r.2)

/-- The tail of an update-request iteration: the reset step. -/
def otaIterFinish (oracle : Nat → Bool) (mods : List Module)
    (needReset : Bool) (k : Nat) (ev : List FEvent) : IterResult :=
  if needReset then
    if oracle k then
      IterResult.stepped (ev ++ [FEvent.otaReset true]) mods false true
        (k + 1)
    else
      IterResult.thrown (ev ++ [FEvent.otaReset false]) mods needReset true
        (k + 1)
  else IterResult.stepped ev mods needReset true k

/-- The head-module step of an update-request iteration: flash, close the
handle when the result is reset-pending (a close failure leaves the module to
be re-flashed), shift, and possibly reset. -/
def otaIterDo (oracle pending : Nat → Bool) (m : Module)
    (rest : List Module) (needReset : Bool) (k : Nat) (ev : List FEvent) :
    IterResult :=
  if oracle k then
    if pending k then
      if oracle (k + 1) then
        IterResult.stepped (ev ++ [FEvent.otaFlash m true true true,
          FEvent.otaClose true]) rest needReset false (k + 2)
      else
        IterResult.thrown (ev ++ [FEvent.otaFlash m true true false,
          FEvent.otaClose false]) (m :: rest) needReset true (k + 2)
    else
      let needReset2 := if rest.isEmpty then true else needReset
      otaIterFinish oracle rest needReset2 (k + 1)
        (ev ++ [FEvent.otaFlash m true false true])
  else
    IterResult.thrown (ev ++ [FEvent.otaFlash m false false false])
      (m :: rest) needReset true (k + 1)

/-- The module section of an update-request iteration, with the device
open. -/
def otaIterModule (oracle pending : Nat → Bool) (mods : List Module)
    (needReset : Bool) (prepare : Bool) (k : Nat) (ev : List FEvent) :
    IterResult :=
  match mods with
  | [] => otaIterFinish oracle [] needReset k ev
  | m :: rest =>
    if prepare then
      if oracle k then
        otaIterDo oracle pending m rest needReset (k + 1)
          (ev ++ [FEvent.otaPrepare true])
      else
        IterResult.thrown (ev ++ [FEvent.otaPrepare false]) (m :: rest)
          needReset true (k + 1)
    else otaIterDo oracle pending m rest needReset k ev

/-- One iteration of the _updateModules try block (the reopen waits
REOPEN_DELAY and uses the REOPEN_TIMEOUT, then prepares the device). -/
def otaIter (oracle pending : Nat → Bool) (mods : List Module)
    (needReset devOpen : Bool) (k : Nat) : IterResult :=
  if devOpen then otaIterModule oracle pending mods needReset false k []
  else if oracle k then
    otaIterModule oracle pending mods needReset true (k + 1)
      [FEvent.otaOpen true]
  else IterResult.thrown [FEvent.otaOpen false] mods needReset false (k + 1)

/-- The _updateModules loop: events, outcome, remaining retries, next oracle
index. -/
def otaLoop (oracle pending : Nat → Bool) :
    Nat → List Module → Bool → Bool → Nat → Nat →
    List FEvent × FlashOutcome × Nat × Nat
  | 0, _, _, _, retries, k => ([], FlashOutcome.outOfFuel, retries, k)
  | fuel + 1, mods, needReset, devOpen, retries, k =>
    if mods.isEmpty && !needReset then
      if devOpen then
        let okC := oracle k
        ([FEvent.otaClose okC],
         if okC then FlashOutcome.ok else FlashOutcome.error, retries, k + 1)
      else ([], FlashOutcome.ok, retries, k)
    else
      match otaIter oracle pending mods needReset devOpen k with
      | IterResult.stepped ev mods2 needReset2 open2 k2 =>
        let r := otaLoop oracle pending fuel mods2 needReset2 open2
          retries k2
        (ev ++ r.1, r.2)
      | IterResult.thrown ev mods2 needReset2 isOpen2 k2 =>
        let c := flashCatch FEvent.otaClose oracle isOpen2 retries k2
        match c.2 with
        | none => (ev ++ c.1, FlashOutcome.error, retries, k2)
        | some rk =>
          let r := otaLoop oracle pending fuel mods2 needReset2 false
            rk.1 rk.2
          (ev ++ c.1 ++ r.1, r.2)

/-- The partition of Flasher.run: modules the primary transport can flash
directly and modules that can only be flashed via update requests, both in
input order. -/
def partitionModules (canFlash : Module → Bool)
    (canWrite : StorageType → Bool) (mods : List Module) :
    List Module × List Module :=
  (mods.filter (fun m => canFlash m && canWrite m.storage),
   mods.filter (fun m => !(canFlash m && canWrite m.storage)))

/-- Fuel sufficient for a loop on the given module list. -/
def loopFuel (retries : Nat) (mods : List Module) : Nat :=
  retries + 2 * mods.length + 2

/-- Flasher.run: filter by the device's platform, partition, run the direct
phase (when nonempty), and only when it succeeded run the update-request
phase (when nonempty), sharing the retry budget. -/
def runFlasher (platformId : Nat) (enc : List (ModuleType × Nat))
    (canFlash : Module → Bool) (canWrite : StorageType → Bool)
    (oracle pending : Nat → Bool) (modules : List Module)
    (maxRetries : Nat) : List FEvent × FlashOutcome :=
  let mods := modules.filter (fun m => m.platformId == platformId)
  if mods.isEmpty then ([], FlashOutcome.ok)
  else
    let direct := (partitionModules canFlash canWrite mods).1
    let ota := (partitionModules canFlash canWrite mods).2
    let r1 :=
      if !direct.isEmpty then
        flashLoop enc oracle (loopFuel maxRetries direct) direct false false
          maxRetries 0
      else ([], FlashOutcome.ok, maxRetries, 0)
    if r1.2.1 ≠ FlashOutcome.ok then (r1.1, r1.2.1)
    else if !ota.isEmpty then
      let r2 := otaLoop oracle pending (loopFuel r1.2.2.1 ota) ota false
        false r1.2.2.1 r1.2.2.2
      (r1.1 ++ r2.1, r2.2.1)
    else (r1.1, FlashOutcome.ok)

/-- Events of the direct phase. -/
def directEvent : FEvent → Bool
  | FEvent.devOpen _ => true
  | FEvent.devPrepare _ => true
  | FEvent.write _ _ => true
  | FEvent.skipEncrypted _ => true
  | FEvent.devReset _ => true
  | FEvent.devClose _ => true
  | _ => false

/-- Events of the update-request phase. -/
def otaEvent : FEvent → Bool
  | FEvent.otaOpen _ => true
  | FEvent.otaPrepare _ => true
  | FEvent.otaFlash _ _ _ _ => true
  | FEvent.otaReset _ => true
  | FEvent.otaClose _ => true
  | _ => false

/-- An attempt to flash a module over the update-request transport. -/
def otaAttempt : FEvent → Bool
  | FEvent.otaFlash _ _ _ _ => true
  | _ => false

/-- Check a trace against the direct partition: every write or skip targets
the first module not yet written or skipped, a failed write does not advance,
and the remaining modules are returned.  none marks an out-of-order
attempt. -/
def consumeDirect : List Module → List FEvent → Option (List Module)
  | mods, [] => some mods
  | mods, FEvent.write m ok :: es =>
    (match mods with
     | [] => none
     | m0 :: rest =>
       if m = m0 then consumeDirect (if ok then rest else m0 :: rest) es
       else none)
  | mods, FEvent.skipEncrypted m :: es =>
    (match mods with
     | [] => none
     | m0 :: rest => if m = m0 then consumeDirect rest es else none)
  | mods, _ :: es => consumeDirect mods es

/-- Check a trace against the update-request partition: every flash attempt
targets the first module whose processing is not yet complete (an attempt is
complete once the module was shifted: flashed and, when reset-pending, the
handle closed); an incomplete attempt does not advance. -/
def consumeOta : List Module → List FEvent → Option (List Module)
  | mods, [] => some mods
  | mods, FEvent.otaFlash m _ _ shifted :: es =>
    (match mods with
     | [] => none
     | m0 :: rest =>
       if m = m0 then consumeOta (if shifted then rest else m0 :: rest) es
       else none)
  | mods, _ :: es => consumeOta mods es

/-- A p2 bootloader binary lacking the required encryption flag, used as a
concrete test input (the rtl872x catalog entry marks the bootloader slot
index 1 required-encrypted). -/
def exP2Bootloader : Module :=
  { platformId := 32,
    type := ModuleType.bootloader,
    index := 1,
    version := 500,
    fileSize := 10,
    file := "p2-bootloader.bin",
    storage := StorageType.internalFlash,
    encrypted := false }

/-- The rtl872x encrypted-modules catalog entry (platform.js revision with
encryptedModules): the bootloader slot index 1 must be encrypted. -/
def p2EncryptedModules : List (ModuleType × Nat) :=
  [(ModuleType.bootloader, 1)]

/-- The device's share of the input: the modules of its platform, in input
order (Flasher.run line 147). -/
def deviceModules (platformId : Nat) (modules : List Module) : List Module :=
  modules.filter (fun m => m.platformId == platformId)

/-! ## C3: the cache round trip (dfu_flasher.js
ModuleCache.getReleaseModules lines 82-116).  The fast path re-parses every
.bin under the cache directory; the commit of a cold run for a non-draft
release copies each module file to
<cacheDir>/<version>/<platform_name>/<basename> and repoints the record. -/

/-- path.basename: the last slash-separated component. -/
def basename (p : String) : String :=
  String.mk ((p.data.reverse.takeWhile (fun c => !(c == '/'))).reverse)

/-- The metadata a module's binary content parses back to: the module record
with the location-dependent fields (file path, asset marker) cleared. -/
def coreOf (m : Module) : Module :=
  { m with file := "", isAsset := false }

/-- Write a file into a directory tree (an association list from path to
content); an existing path is overwritten in place. -/
def fsWrite (fs : List (String × BinContent)) (p : String)
    (c : BinContent) : List (String × BinContent) :=
  if (fs.lookup p).isSome then
    fs.map (fun e => if e.1 = p then (p, c) else e)
  else fs ++ [(p, c)]

/-- The cache destination of a module: <version>/<platform_name>/<basename>
(the cache-dir prefix is common and omitted). -/
def cacheDest (platformName : Nat → String) (version : String)
    (m : Module) : String :=
  version ++ "/" ++ platformName m.platformId ++ "/" ++ basename m.file

/-- One module of the commit loop of getReleaseModules: copy the module's
file to its cache destination and repoint the record. -/
def commitStep (platformName : Nat → String) (version : String)
    (srcFs : List (String × BinContent))
    (acc : List (String × BinContent) × List Module) (m : Module) :
    List (String × BinContent) × List Module :=
  let dest := cacheDest platformName version m
  let content := (srcFs.lookup m.file).getD none
  (fsWrite acc.1 dest content, acc.2 ++ [{ m with file := dest }])

/-- The cache commit of a cold getReleaseModules run for a non-draft release:
the cache directory contents and the returned module list. -/
def cacheReleaseModules (platformName : Nat → String) (version : String)
    (mods : List Module) (srcFs : List (String × BinContent)) :
    List (String × BinContent) × List Module :=
  mods.foldl (commitStep platformName version srcFs) ([], [])

/-- The comparison key of the round-trip claim. -/
def moduleQuad (platformName : Nat → String) (m : Module) :
    String × ModuleType × Nat × Nat :=
  (platformName m.platformId, m.type, m.index, m.version)

/-- A first module whose cache destination collides with exModB, used as a
concrete test input. -/
def exModA : Module :=
  { platformId := 0,
    type := ModuleType.userPart,
    index := 1,
    version := 100,
    fileSize := 10,
    file := "d1/a.bin",
    storage := StorageType.internalFlash,
    encrypted := false }

/-- A second module with the same platform and basename but a different
index, used as a concrete test input. -/
def exModB : Module :=
  { platformId := 0,
    type := ModuleType.userPart,
    index := 2,
    version := 200,
    fileSize := 20,
    file := "d2/a.bin",
    storage := StorageType.internalFlash,
    encrypted := false }

/-- The download directory contents for the two colliding modules. -/
def exSrcFs : List (String × BinContent) :=
  [("d1/a.bin", some (coreOf exModA)), ("d2/a.bin", some (coreOf exModB))]

/-- A boron bootloader binary published in an older release, used as a
concrete test input. -/
def exBootModule : Module :=
  { platformId := 13,
    type := ModuleType.bootloader,
    index := 1,
    version := 1201,
    fileSize := 50,
    file := "boron-bootloader@2.0.1.bin",
    storage := StorageType.internalFlash,
    encrypted := false }

/-- A backfill environment used as a concrete test input: no bundled assets,
two older releases, the bootloader available in release 2.0.1. -/
def exBackfillEnv : BackfillEnv :=
  { platforms := fun pid =>
      { id := pid, name := "boron", hasRadioStack := false,
        hasNcpFirmware := false },
    assetMods := [],
    downloadMods := fun v => if v = "2.0.1" then [exBootModule] else [],
    releases := [{ tagName := "v2.0.1", draft := false },
                 { tagName := "v2.0.0", draft := false }],
    semverValid := fun s => s != "",
    semverLt := fun a b => decide (a < b),
    semverLe := fun a b => decide (a ≤ b) }

end DeviceOsFlashUtil

namespace DeviceOsFlashUtil

/-! ## Theorems -/

/-- The resolver always keeps one of the two colliding modules. -/
theorem resolveCollision_eq_or (m2 m : Module) :
    resolveCollision m2 m = m2 ∨ resolveCollision m2 m = m := by
  unfold resolveCollision
  split <;> simp

/-- When the two colliding modules agree on the tinker test, the resolver
reduces to the version comparison followed by the file-size comparison. -/
theorem resolveCollision_of_tinker_eq (m2 m : Module)
    (heq : isTinkerUserPart m2 = isTinkerUserPart m) :
    resolveCollision m2 m =
      (if m2.version ≠ m.version then
        (if m2.version > m.version then m2 else m)
      else (if m2.fileSize < m.fileSize then m2 else m)) := by
  unfold resolveCollision keepExisting
  rcases h : isTinkerUserPart m2 with _ | _ <;> rw [h] at heq <;>
    simp [h, ← heq] <;> split <;> simp

/-! ### C1 -/

/-- C1: when two parsed module binaries collide on the same
(platform name, type, index) key, the resolver keeps a tinker user-part over a
non-tinker one regardless of version; when neither or both are tinker
user-parts, it keeps the higher version, and on equal versions the smaller
file. -/
theorem c1_collision_tie_breaks (platformName : Nat → String) (m2 m : Module)
    (hkey : moduleKey platformName m2 = moduleKey platformName m) :
    (isTinkerUserPart m2 = true → isTinkerUserPart m = false →
      resolveCollision m2 m = m2) ∧
    (isTinkerUserPart m = true → isTinkerUserPart m2 = false →
      resolveCollision m2 m = m) ∧
    (isTinkerUserPart m2 = isTinkerUserPart m →
      (resolveCollision m2 m = m2 ∨ resolveCollision m2 m = m) ∧
      (m2.version ≠ m.version →
        (resolveCollision m2 m).version = max m2.version m.version) ∧
      (m2.version = m.version →
        (resolveCollision m2 m).fileSize = min m2.fileSize m.fileSize)) := by
  refine ⟨?_, ?_, fun heq => ⟨resolveCollision_eq_or m2 m, ?_, ?_⟩⟩
  · intro h2 h1
    simp [resolveCollision, keepExisting, h1, h2]
  · intro h1 h2
    simp [resolveCollision, keepExisting, h1, h2]
  · intro hv
    rw [resolveCollision_of_tinker_eq m2 m heq, if_pos hv]
    split <;> omega
  · intro hv
    rw [resolveCollision_of_tinker_eq m2 m heq, if_neg (not_not_intro hv)]
    split <;> omega

/-- Witness for C1 at concrete modules: a tinker user-part beats a non-tinker
user-part with a higher version. -/
theorem c1_collision_tie_breaks_witness :
    isTinkerUserPart exUserPartTinker = true ∧
    isTinkerUserPart exUserPartPlain = false ∧
    resolveCollision exUserPartPlain exUserPartTinker = exUserPartTinker := by
  refine ⟨by decide, by decide, ?_⟩
  have h := c1_collision_tie_breaks (fun _ => "boron")
    exUserPartPlain exUserPartTinker (by decide)
  exact h.2.1 (by decide) (by decide)

/-! ### C10 -/

/-- The computed type list agrees with the whitelist-then-blacklist predicate
on every module type. -/
theorem filterTypes_contains_eq (a : FilterArgs) (t : ModuleType) :
    (filterTypes a).contains t = specKeepType a t := by
  obtain ⟨s, u, b, n, r, ns, nu, nb, nn, nr⟩ := a
  cases s <;> cases u <;> cases b <;> cases n <;> cases r <;>
    cases ns <;> cases nu <;> cases nb <;> cases nn <;> cases nr <;>
    cases t <;> rfl

/-- C10: the module-type flags are applied whitelist-then-blacklist — with at
least one whitelist flag only whitelisted types survive, otherwise every type
does; each no-flag then removes its type (so giving both flags for a type
removes it); the surviving modules keep their original order (the result is a
sublist of the input). -/
theorem c10_filter_modules (a : FilterArgs) (modules : List Module) :
    filterModules a modules =
      modules.filter (fun m => specKeepType a m.type) ∧
    List.Sublist (filterModules a modules) modules := by
  constructor
  · unfold filterModules
    exact List.filter_congr (fun m _ => filterTypes_contains_eq a m.type)
  · exact List.filter_sublist modules

/-! ### C8 (corrected: the enforced interval is 1 second, not 5) -/

/-- Counterexample to C8 as stated: the driver itself produces two
back-to-back resets of the same target only DELAY_AFTER_RESET = 1000 ms apart,
a valid schedule, so no 5-second minimum interval is enforced. -/
theorem c8_counterexample_one_second_interval :
    resetTimes 0 2 = [0, 1000] ∧
    validResetSchedule (resetTimes 0 2) ∧
    ¬ List.Chain' (fun a b => a + 5000 ≤ b) (resetTimes 0 2) := by
  have ht : resetTimes 0 2 = [0, 1000] := by decide
  refine ⟨ht, ?_, ?_⟩
  · unfold validResetSchedule
    rw [ht]
    simp [List.chain'_cons, resetInvocation, DELAY_AFTER_RESET]
  · rw [ht]
    simp [List.chain'_cons]

/-- C8 as amended: the debug-adapter transport enforces a minimum interval of
DELAY_AFTER_RESET = 1000 ms (one second, not five) between two resets of the
same target device, because reset only returns DELAY_AFTER_RESET after issuing
the reset command and per-device operations are serialized. -/
theorem c8_reset_min_interval (ts : List Nat) (h : validResetSchedule ts) :
    DELAY_AFTER_RESET = 1000 ∧
    ts.Chain' (fun a b => a + 1000 ≤ b) := by
  refine ⟨rfl, ?_⟩
  refine h.imp (fun a b hab => ?_)
  simpa [resetInvocation, DELAY_AFTER_RESET] using hab

/-- Witness for the amended C8 at a concrete schedule. -/
theorem c8_reset_min_interval_witness :
    validResetSchedule [3, 1003, 2500] ∧
    List.Chain' (fun a b => a + 1000 ≤ b) [3, 1003, 2500] := by
  have hv : validResetSchedule [3, 1003, 2500] := by
    unfold validResetSchedule
    simp [List.chain'_cons, resetInvocation, DELAY_AFTER_RESET]
  exact ⟨hv, (c8_reset_min_interval [3, 1003, 2500] hv).2⟩

/-! ### C7 -/

/-- C7: on a normal subprocess exit, writeToFlash closes the USB handle before
spawning dfu-util, runs it with the 2-minute timeout, reopens the handle, and
fails with an error carrying the stderr output exactly when the exit code is
nonzero. -/
theorem c7_write_to_flash (alt : Nat) (vidPid idArg idVal : String)
    (address : Nat) (file : String) (r : ExecResult) :
    writeToFlash (some alt) true vidPid idArg idVal address file
        (Except.ok r) =
      ([DfuEvent.closeHandle,
        DfuEvent.spawnDfuUtil (dfuUtilArgs vidPid idArg idVal alt address file)
          FLASH_TIMEOUT,
        DfuEvent.reopenHandle],
       if r.exitCode ≠ 0 then
         Except.error ("dfu-util failed:\n" ++ r.stderr)
       else Except.ok ()) ∧
    FLASH_TIMEOUT = 2 * 60 * 1000 ∧
    ((writeToFlash (some alt) true vidPid idArg idVal address file
        (Except.ok r)).2 = Except.ok () ↔ r.exitCode = 0) := by
  refine ⟨?_, rfl, ?_⟩
  · unfold writeToFlash
    by_cases h : r.exitCode = 0 <;> simp [h]
  · unfold writeToFlash
    by_cases h : r.exitCode = 0 <;> simp [h]

/-! ### C6 -/

/-- Folding flashStep accumulates the completion order and records the first
error in completion order. -/
theorem foldl_flashStep (outcome : String → Except String Unit)
    (flashers : List FlasherInstance) (order : List Nat) :
    ∀ d e, order.foldl (flashStep outcome flashers) (d, e) =
      (d ++ order,
       e <|> (order.filterMap (fun i => errOpt (outcome
         (flashers.getD i { name := "", device := "" }).device))).head?) := by
  induction order with
  | nil =>
    intro d e
    cases e <;> simp
  | cons i rest ih =>
    intro d e
    simp only [List.foldl_cons, List.filterMap_cons]
    rw [flashStep]
    cases e with
    | none =>
      cases h : errOpt (outcome
          (flashers.getD i { name := "", device := "" }).device) <;>
        simp [h, ih]
    | some e0 => simp [ih]

/-- Processing a completion order accumulates exactly that order. -/
theorem flashDevices_done_eq (outcome : String → Except String Unit)
    (flashers : List FlasherInstance) (order : List Nat) :
    (flashDevices outcome flashers order).1 = order := by
  simp only [flashDevices, foldl_flashStep]
  simp

/-- The error thrown by flashDevices is the first error in completion
order. -/
theorem flashDevices_err_eq (outcome : String → Except String Unit)
    (flashers : List FlasherInstance) (order : List Nat) :
    (flashDevices outcome flashers order).2 =
      (match (order.filterMap (fun i => errOpt (outcome
          (flashers.getD i { name := "", device := "" }).device))).head? with
       | none => Except.ok ()
       | some e => Except.error e) := by
  simp only [flashDevices, foldl_flashStep]
  simp

/-- C6: one flasher is created per target device; every flasher runs to a
terminal state regardless of other devices failing (each device index appears
exactly once in the processed list for any completion order); after all
complete, the first captured error, if any, is thrown. -/
theorem c6_flash_devices (outcome : String → Except String Unit)
    (devs : List String) (order : List Nat)
    (hperm : order.Perm (List.range devs.length)) :
    (mkFlashers devs).map FlasherInstance.device = devs ∧
    (mkFlashers devs).length = devs.length ∧
    (flashDevices outcome (mkFlashers devs) order).1 = order ∧
    (∀ i < devs.length,
      (flashDevices outcome (mkFlashers devs) order).1.count i = 1) ∧
    (flashDevices outcome (mkFlashers devs) order).2 =
      (match (order.filterMap (fun i => errOpt (outcome
          ((mkFlashers devs).getD i { name := "", device := "" }).device))).head? with
       | none => Except.ok ()
       | some e => Except.error e) := by
  refine ⟨?_, ?_, flashDevices_done_eq _ _ _, ?_, flashDevices_err_eq _ _ _⟩
  · unfold mkFlashers
    rw [List.map_map]
    have : ((fun p : Nat × String => p.2) =
        (FlasherInstance.device ∘ fun p : Nat × String =>
          { name := "device_" ++ toString (p.1 + 1), device := p.2 })) := by
      funext p
      rfl
    rw [← this]
    exact List.map_snd_zip _ _ (by simp)
  · unfold mkFlashers
    simp
  · intro i hi
    rw [flashDevices_done_eq, hperm.count_eq]
    exact List.count_eq_one_of_mem (List.nodup_range _)
      (List.mem_range.mpr hi)

/-- Witness for C6: two devices, the first one failing; the failure does not
prevent the second device from completing, and the first captured error is
thrown. -/
theorem c6_flash_devices_witness :
    (let outcome := fun d => if d = "aabb" then Except.error "flash failed"
                             else Except.ok ()
     let r := flashDevices outcome (mkFlashers ["aabb", "ccdd"]) [1, 0]
     r.1 = [1, 0] ∧ r.2 = Except.error "flash failed") := by
  have h := c6_flash_devices
    (fun d => if d = "aabb" then Except.error "flash failed" else Except.ok ())
    ["aabb", "ccdd"] [1, 0] (by decide)
  refine ⟨h.2.2.1, ?_⟩
  rw [h.2.2.2.2]
  rfl

/-! ### C2 -/

/-- The page loop of _findDraftRelease visits the whole listing: with enough
fuel it returns the first matching release of the flattened listing. -/
theorem findDraftGo_eq_find (semverEq : String → String → Bool)
    (version : String) (fuel : Nat) (rest : List Release)
    (h : rest.length ≤ MAX_RELEASES_PER_PAGE * fuel) :
    findDraftGo semverEq version fuel rest =
      rest.find? (isDraftMatch semverEq version) := by
  induction fuel generalizing rest with
  | zero =>
    have hr : rest = [] := List.eq_nil_of_length_eq_zero (by omega)
    subst hr
    rfl
  | succ n ih =>
    rw [findDraftGo]
    by_cases hx : rest.take MAX_RELEASES_PER_PAGE = []
    · have hr : rest = [] := by
        rcases rest with _ | ⟨a, t⟩
        · rfl
        · simp [MAX_RELEASES_PER_PAGE] at hx
      subst hr
      simp
    · simp only [List.isEmpty_iff, hx, if_false]
      rcases hf : (rest.take MAX_RELEASES_PER_PAGE).find?
          (isDraftMatch semverEq version) with _ | r
      · rw [ih (rest.drop MAX_RELEASES_PER_PAGE)
          (by rw [List.length_drop]; simp [MAX_RELEASES_PER_PAGE] at h ⊢; omega)]
        conv_rhs => rw [← List.take_append_drop MAX_RELEASES_PER_PAGE rest]
        rw [List.find?_append, hf]
        simp
      · conv_rhs => rw [← List.take_append_drop MAX_RELEASES_PER_PAGE rest]
        rw [List.find?_append, hf]
        simp

/-- Paging with 100 releases per page reaches every release: _findDraftRelease
returns the first release of the listing whose draft flag is set and whose
v-stripped tag is semver-equal to the requested version. -/
theorem findDraftRelease_eq_find (semverEq : String → String → Bool)
    (api : GitHubApi) (version : String) :
    findDraftRelease semverEq api version =
      api.releases.find? (isDraftMatch semverEq version) := by
  unfold findDraftRelease
  exact findDraftGo_eq_find semverEq version (api.releases.length + 1)
    api.releases (by simp [MAX_RELEASES_PER_PAGE]; omega)

/-- C2: locateRelease first requests tag v<version>; on 404 it requests tag
<version>; on a second 404 with the draft option it pages through the full
listing (100 per page) and selects the first draft whose v-stripped tag is
semver-equal to the requested version; if nothing is found it fails with the
release-not-found error naming the version; any non-404 error propagates. -/
theorem c2_locate_release (semverEq : String → String → Bool)
    (api : GitHubApi) (version : String) (draft : Bool) :
    (∀ r, api.byTag ("v" ++ version) = Except.ok r →
      locateRelease semverEq api version draft = Except.ok r) ∧
    (∀ e, api.byTag ("v" ++ version) = Except.error e → e.status ≠ 404 →
      locateRelease semverEq api version draft =
        Except.error (LocateError.http e)) ∧
    (∀ e r, api.byTag ("v" ++ version) = Except.error e → e.status = 404 →
      api.byTag version = Except.ok r →
      locateRelease semverEq api version draft = Except.ok r) ∧
    (∀ e e2, api.byTag ("v" ++ version) = Except.error e → e.status = 404 →
      api.byTag version = Except.error e2 → e2.status ≠ 404 →
      locateRelease semverEq api version draft =
        Except.error (LocateError.http e2)) ∧
    (∀ e e2, api.byTag ("v" ++ version) = Except.error e → e.status = 404 →
      api.byTag version = Except.error e2 → e2.status = 404 →
      (draft = true →
        locateRelease semverEq api version draft =
          (match api.releases.find? (isDraftMatch semverEq version) with
           | some r => Except.ok r
           | none => Except.error (LocateError.notFound version))) ∧
      (draft = false →
        locateRelease semverEq api version draft =
          Except.error (LocateError.notFound version))) ∧
    (∀ r, findDraftRelease semverEq api version = some r →
      r ∈ api.releases ∧ r.draft = true ∧
      semverEq (stripV r.tagName) version = true) ∧
    (findDraftRelease semverEq api version = none →
      ∀ r ∈ api.releases, r.draft = true →
        semverEq (stripV r.tagName) version = true → r.tagName = "") := by
  refine ⟨?_, ?_, ?_, ?_, ?_, ?_, ?_⟩
  · intro r h
    unfold locateRelease
    rw [h]
  · intro e h hs
    unfold locateRelease
    rw [h]
    simp [hs]
  · intro e r h hs h2
    unfold locateRelease
    rw [h, h2]
    simp [hs]
  · intro e e2 h hs h2 hs2
    unfold locateRelease
    rw [h, h2]
    simp [hs, hs2]
  · intro e e2 h hs h2 hs2
    constructor
    · intro hd
      unfold locateRelease
      rw [h, h2]
      rw [findDraftRelease_eq_find]
      simp [hs, hs2, hd]
    · intro hd
      unfold locateRelease
      rw [h, h2]
      simp [hs, hs2, hd]
  · intro r h
    rw [findDraftRelease_eq_find] at h
    have hm := List.mem_of_find?_eq_some h
    have hp := List.find?_some h
    unfold isDraftMatch at hp
    simp only [Bool.and_eq_true, bne_iff_ne] at hp
    exact ⟨hm, hp.1.2, hp.2⟩
  · intro h r hr hd he
    rw [findDraftRelease_eq_find, List.find?_eq_none] at h
    have hnp := h r hr
    unfold isDraftMatch at hnp
    by_contra hne
    apply hnp
    simp [hne, hd, he]

/-- Witness for C2: a listing whose second page holds the matching draft, with
both tag lookups answering 404. -/
theorem c2_locate_release_witness :
    locateRelease (fun a b => a == b) exGitHubApi "1.9.0-rc.1" true =
      Except.ok exDraftRelease := by
  have h := (c2_locate_release (fun a b => a == b) exGitHubApi
    "1.9.0-rc.1" true).2.2.2.2.1
    { status := 404, msg := "Not Found" }
    { status := 404, msg := "Not Found" }
    rfl rfl rfl rfl
  have hf : List.find? (isDraftMatch (fun a b => a == b) "1.9.0-rc.1")
      exGitHubApi.releases = some exDraftRelease := by decide
  rw [h.1 rfl, hf]

/-! ### C9 -/

/-- C9: whenever option negotiation completes (no option half is still in a
WANT state), connect proceeds to prompt handling exactly when both the client
and the server half of SUPPRESS-GO-AHEAD ended up enabled, and fails with the
negotiation error otherwise. -/
theorem c9_connect_requires_suppress_go_ahead (o : ConnOpts)
    (incoming : List (TelnetCmd × Nat))
    (hdone : negotiatingOptions (runNegotiation o incoming) = false) :
    (connectAfterNegotiation o incoming = ConnectPhase.promptHandling ↔
      ((runNegotiation o incoming).clientSga.current = OptionState.yes ∧
       (runNegotiation o incoming).serverSga.current = OptionState.yes)) ∧
    (((runNegotiation o incoming).clientSga.current ≠ OptionState.yes ∨
      (runNegotiation o incoming).serverSga.current ≠ OptionState.yes) →
      connectAfterNegotiation o incoming =
        ConnectPhase.failed "Failed to enable SUPPRESS-GO-AHEAD option") := by
  constructor
  · unfold connectAfterNegotiation negotiationResult
    by_cases hc : (runNegotiation o incoming).clientSga.current =
        OptionState.yes <;>
      by_cases hs : (runNegotiation o incoming).serverSga.current =
        OptionState.yes <;>
      simp [hc, hs]
  · intro hne
    unfold connectAfterNegotiation negotiationResult
    rcases hne with hne | hne <;> simp [hne]

/-! ### C4 helper lemmas -/

/-- The pager of _listOlderReleaseVersions visits every page of the
listing. -/
theorem collectPagesGo_eq (fuel : Nat) (rest : List Release)
    (h : rest.length ≤ MAX_RELEASES_PER_PAGE * fuel) :
    collectPagesGo fuel rest = rest := by
  induction fuel generalizing rest with
  | zero =>
    have hr : rest = [] := List.eq_nil_of_length_eq_zero (by omega)
    subst hr
    rfl
  | succ n ih =>
    simp only [collectPagesGo]
    by_cases hx : rest.take MAX_RELEASES_PER_PAGE = []
    · have hr : rest = [] := by
        rcases rest with _ | ⟨a, t⟩
        · rfl
        · simp [MAX_RELEASES_PER_PAGE] at hx
      subst hr
      simp
    · rw [if_neg (by simp [hx])]
      rw [ih _ (by
        rw [List.length_drop]
        simp only [MAX_RELEASES_PER_PAGE] at h ⊢
        omega)]
      exact List.take_append_drop _ _

/-- Paging in chunks of 100 collects exactly the full listing. -/
theorem collectPages_eq (releases : List Release) :
    collectPages releases = releases :=
  collectPagesGo_eq _ _ (by simp only [MAX_RELEASES_PER_PAGE]; omega)

/-- contains agrees with membership on string lists. -/
theorem contains_iff_mem (l : List String) (x : String) :
    l.contains x = true ↔ x ∈ l := by
  simp only [List.contains]
  exact List.elem_iff

/-- The collected version list only grows at each step. -/
theorem mem_tagVersionStep (valid : String → Bool) (acc : List String)
    (r : Release) (x : String) (hx : x ∈ acc) :
    x ∈ tagVersionStep valid acc r := by
  simp only [tagVersionStep]
  split
  · split
    · exact List.mem_append_left _ hx
    · exact hx
  · exact hx

/-- Membership in the accumulator is preserved through the fold. -/
theorem mem_foldl_tagVersionStep (valid : String → Bool)
    (rs : List Release) :
    ∀ acc x, x ∈ acc → x ∈ rs.foldl (tagVersionStep valid) acc := by
  induction rs with
  | nil =>
    intro acc x hx
    simpa using hx
  | cons r rest ih =>
    intro acc x hx
    simp only [List.foldl_cons]
    exact ih _ _ (mem_tagVersionStep valid acc r x hx)

/-- Soundness of the collected version list: every collected version is valid
and comes from a truthy release tag. -/
theorem foldl_tagVersionStep_sound (valid : String → Bool)
    (rs : List Release) :
    ∀ acc x, x ∈ rs.foldl (tagVersionStep valid) acc →
      x ∈ acc ∨ (valid x = true ∧
        ∃ r ∈ rs, r.tagName ≠ "" ∧ x = stripV r.tagName) := by
  induction rs with
  | nil =>
    intro acc x hx
    left
    simpa using hx
  | cons r rest ih =>
    intro acc x hx
    simp only [List.foldl_cons] at hx
    rcases ih _ x hx with h | ⟨hv, r2, hr2, ht, he⟩
    · simp only [tagVersionStep] at h
      by_cases h1 : r.tagName != ""
      · rw [if_pos h1] at h
        by_cases h2 : valid (stripV r.tagName) &&
            !(acc.contains (stripV r.tagName))
        · rw [if_pos h2] at h
          rcases List.mem_append.mp h with h | h
          · exact Or.inl h
          · simp only [List.mem_singleton] at h
            subst h
            right
            have h2a : valid (stripV r.tagName) = true := by
              simp only [Bool.and_eq_true] at h2
              exact h2.1
            exact ⟨h2a, r, List.mem_cons_self .., by simpa using h1, rfl⟩
        · rw [if_neg h2] at h
          exact Or.inl h
      · rw [if_neg h1] at h
        exact Or.inl h
    · exact Or.inr ⟨hv, r2, List.mem_cons_of_mem _ hr2, ht, he⟩

/-- Completeness of the collected version list: every valid, truthy tag of
the listing appears (v-stripped) in the collection. -/
theorem foldl_tagVersionStep_complete (valid : String → Bool)
    (rs : List Release) :
    ∀ acc (r : Release), r ∈ rs → r.tagName ≠ "" →
      valid (stripV r.tagName) = true →
      stripV r.tagName ∈ rs.foldl (tagVersionStep valid) acc := by
  induction rs with
  | nil =>
    intro acc r hr
    simp at hr
  | cons r0 rest ih =>
    intro acc r hr ht hv
    rcases List.mem_cons.mp hr with h | h
    · subst h
      simp only [List.foldl_cons]
      apply mem_foldl_tagVersionStep
      simp only [tagVersionStep]
      rw [if_pos (by simpa using ht)]
      by_cases hc : acc.contains (stripV r.tagName)
      · have hm : stripV r.tagName ∈ acc :=
          (contains_iff_mem acc _).mp hc
        split
        · exact List.mem_append_left _ hm
        · exact hm
      · have hnm : stripV r.tagName ∉ acc :=
          fun hm => hc ((contains_iff_mem acc _).mpr hm)
        rw [if_pos (by simp [hv]; exact hnm)]
        exact List.mem_append_right _ (by simp)
    · simp only [List.foldl_cons]
      exact ih _ r h ht hv

/-- The list of older release versions: every entry is valid and strictly
older, every valid strictly-older tag of the listing appears, and under a
transitive total comparator the list is descending. -/
theorem listOlderReleaseVersions_spec (valid : String → Bool)
    (lt le : String → String → Bool) (releases : List Release)
    (version : String)
    (htrans : ∀ a b c, le a b = true → le b c = true → le a c = true)
    (htotal : ∀ a b, (le a b || le b a) = true) :
    (∀ v ∈ listOlderReleaseVersions valid lt le releases version,
      lt v version = true ∧ valid v = true) ∧
    (∀ r ∈ releases, r.tagName ≠ "" →
      valid (stripV r.tagName) = true →
      lt (stripV r.tagName) version = true →
      stripV r.tagName ∈
        listOlderReleaseVersions valid lt le releases version) ∧
    List.Chain' (fun a b => le b a = true)
      (listOlderReleaseVersions valid lt le releases version) := by
  unfold listOlderReleaseVersions releaseTagVersions
  rw [collectPages_eq]
  refine ⟨?_, ?_, ?_⟩
  · intro v hv
    rw [List.mem_reverse, List.mem_mergeSort, List.mem_filter] at hv
    refine ⟨hv.2, ?_⟩
    rcases foldl_tagVersionStep_sound valid releases [] v hv.1 with
      h | ⟨h, _⟩
    · simp at h
    · exact h
  · intro r hr ht hv hlt
    rw [List.mem_reverse, List.mem_mergeSort, List.mem_filter]
    exact ⟨foldl_tagVersionStep_complete valid releases [] r hr ht hv, hlt⟩
  · apply List.Pairwise.chain'
    rw [List.pairwise_reverse]
    exact List.sorted_mergeSort htrans htotal _

/-- Removing a missing entry only shrinks the set. -/
theorem removeMissingModule_sub (s : MissingSet) (pid : Nat)
    (t : ModuleType) :
    ∀ e ∈ (removeMissingModule s pid t).1, e ∈ s := by
  unfold removeMissingModule
  split
  · intro e he
    exact (List.mem_filter.mp he).1
  · intro e he
    exact he

/-- A successful removal certifies that the entry was missing. -/
theorem removeMissingModule_true_mem (s : MissingSet) (pid : Nat)
    (t : ModuleType) (h : (removeMissingModule s pid t).2 = true) :
    (pid, t) ∈ s := by
  unfold removeMissingModule at h
  split at h
  · assumption
  · simp at h

/-- addMissingModule preserves a property of the recorded types. -/
theorem addMissingModule_types (P : ModuleType → Prop) (s : MissingSet)
    (pid : Nat) (t : ModuleType) (hs : ∀ e ∈ s, P e.2) (ht : P t) :
    ∀ e ∈ addMissingModule s pid t, P e.2 := by
  unfold addMissingModule
  split
  · exact hs
  · intro e he
    rcases List.mem_append.mp he with h | h
    · exact hs e h
    · simp only [List.mem_singleton] at h
      subst h
      exact ht

/-- maybeAddMissing preserves a property of the recorded types. -/
theorem maybeAddMissing_types (P : ModuleType → Prop) (cond : Bool)
    (s : MissingSet) (pid : Nat) (t : ModuleType) (hs : ∀ e ∈ s, P e.2)
    (ht : P t) : ∀ e ∈ maybeAddMissing cond s pid t, P e.2 := by
  unfold maybeAddMissing
  split
  · exact addMissingModule_types P s pid t hs ht
  · exact hs

/-- The initial missing set never records a system part. -/
theorem computeMissing_not_system (platforms : Nat → PlatformRec)
    (groups : List (Nat × List Module)) :
    ∀ e ∈ computeMissing platforms groups,
      e.2 ≠ ModuleType.systemPart := by
  unfold computeMissing
  suffices h : ∀ acc, (∀ e ∈ acc, e.2 ≠ ModuleType.systemPart) →
      ∀ e ∈ groups.foldl (missingStep platforms) acc,
        e.2 ≠ ModuleType.systemPart by
    exact h [] (by simp)
  induction groups with
  | nil =>
    intro acc hacc
    simpa using hacc
  | cons g rest ih =>
    intro acc hacc
    simp only [List.foldl_cons]
    apply ih
    simp only [missingStep]
    apply maybeAddMissing_types (fun t => t ≠ ModuleType.systemPart)
      _ _ _ _ ?_ (by simp)
    apply maybeAddMissing_types (fun t => t ≠ ModuleType.systemPart)
      _ _ _ _ ?_ (by simp)
    apply maybeAddMissing_types (fun t => t ≠ ModuleType.systemPart)
      _ _ _ _ ?_ (by simp)
    exact maybeAddMissing_types (fun t => t ≠ ModuleType.systemPart)
      _ _ _ _ hacc (by simp)

/-- The bundled-assets pass only removes missing entries. -/
theorem addAssetModules_missing_sub (assetMods : List Module) :
    ∀ gs, ∀ e ∈ (addAssetModules assetMods gs).2, e ∈ gs.2 := by
  unfold addAssetModules
  induction assetMods with
  | nil =>
    intro gs e he
    simpa using he
  | cons m rest ih =>
    intro gs e he
    simp only [List.foldl_cons] at he
    have h2 := ih _ e he
    simp only [assetStep] at h2
    split at h2
    · exact removeMissingModule_sub _ _ _ e h2
    · exact h2

/-- Dropping the radio-stack and NCP entries of a missing set that records no
system part leaves only user parts and bootloaders. -/
theorem typesOk_of_drop (gs : List (Nat × List Module) × MissingSet)
    (hns : ∀ x ∈ gs.2, x.2 ≠ ModuleType.systemPart) :
    missingTypesOk
      (if !gs.2.isEmpty then (gs.1, dropRadioNcpMissing gs.2) else gs).2 := by
  intro e he
  split at he
  · simp only at he
    unfold dropRadioNcpMissing at he
    rw [List.mem_filter] at he
    have h1 := hns e he.1
    have h2 := he.2
    rcases h : e.2 <;> rw [h] at h1 h2 <;> simp_all
  · rename_i hne
    have hemp : gs.2 = [] := by
      simpa using hne
    rw [hemp] at he
    simp at he

/-- When the older-release phase starts, the missing set only records user
parts and bootloaders. -/
theorem backfillEntry_typesOk (env : BackfillEnv) (modules : List Module) :
    missingTypesOk (backfillEntry env modules).2 := by
  simp only [backfillEntry]
  apply typesOk_of_drop
  intro x hx
  split at hx
  · exact computeMissing_not_system env.platforms (groupByPlatform modules) x
      (addAssetModules_missing_sub env.assetMods _ x hx)
  · exact computeMissing_not_system env.platforms (groupByPlatform modules)
      x hx

/-- One module step of an older-release probe preserves the missing-set type
invariant, and only includes bootloaders matching /bootloader/i or user parts
matching /tinker/i. -/
theorem probeModuleStep_inv
    (acc : (List (Nat × List Module) × MissingSet) × List Module)
    (m : Module) (h1 : missingTypesOk acc.1.2)
    (h2 : ∀ x ∈ acc.2, olderIncludedOk x) :
    missingTypesOk (probeModuleStep acc m).1.2 ∧
    ∀ x ∈ (probeModuleStep acc m).2, olderIncludedOk x := by
  simp only [probeModuleStep]
  split
  · exact ⟨h1, h2⟩
  · rename_i hskip
    split
    · rename_i hrm
      refine ⟨?_, ?_⟩
      · intro e he
        exact h1 e (removeMissingModule_sub _ _ _ e he)
      · intro x hx
        rcases List.mem_append.mp hx with h | h
        · exact h2 x h
        · simp only [List.mem_singleton] at h
          subst h
          have hmem := removeMissingModule_true_mem _ _ _ hrm
          have hty := h1 _ hmem
          simp only at hty
          unfold olderIncludedOk
          unfold olderModuleSkip at hskip
          rcases hty with hty | hty
          · right
            refine ⟨hty, ?_⟩
            rw [hty] at hskip
            simpa using hskip
          · left
            refine ⟨hty, ?_⟩
            rw [hty] at hskip
            simpa using hskip
    · exact ⟨h1, h2⟩

/-- Probing the modules of one older release preserves the invariant. -/
theorem foldl_probeModuleStep_inv (mods : List Module) :
    ∀ acc, missingTypesOk acc.1.2 → (∀ x ∈ acc.2, olderIncludedOk x) →
      missingTypesOk (mods.foldl probeModuleStep acc).1.2 ∧
      ∀ x ∈ (mods.foldl probeModuleStep acc).2, olderIncludedOk x := by
  induction mods with
  | nil =>
    intro acc h1 h2
    exact ⟨h1, h2⟩
  | cons m rest ih =>
    intro acc h1 h2
    simp only [List.foldl_cons]
    have h := probeModuleStep_inv acc m h1 h2
    exact ih _ h.1 h.2

/-- probeRelease preserves the invariant and the per-module filter. -/
theorem probeRelease_inv (mods : List Module)
    (gs : List (Nat × List Module) × MissingSet)
    (h1 : missingTypesOk gs.2) :
    missingTypesOk (probeRelease mods gs).1.2 ∧
    ∀ x ∈ (probeRelease mods gs).2, olderIncludedOk x := by
  unfold probeRelease
  exact foldl_probeModuleStep_inv mods (gs, []) h1 (by simp)

/-- The older-release loop: the probed versions are a prefix of the
candidates; the loop either exhausts the candidates or clears the missing
set; every strict prefix of the probed versions leaves something missing (the
loop stops as soon as nothing is missing); the loop state is the fold of the
probe steps; the included modules satisfy the filename filter; and the type
invariant is preserved. -/
theorem checkOlderReleases_spec (dm : String → List Module)
    (versions : List String) :
    ∀ (gs : List (Nat × List Module) × MissingSet), gs.2 ≠ [] →
      missingTypesOk gs.2 →
      (∃ t, versions = (checkOlderReleases dm versions gs).2.1 ++ t) ∧
      ((checkOlderReleases dm versions gs).2.1 = versions ∨
        missingAfter dm gs (checkOlderReleases dm versions gs).2.1 = []) ∧
      (∀ p p2, (checkOlderReleases dm versions gs).2.1 = p ++ p2 →
        p2 ≠ [] → missingAfter dm gs p ≠ []) ∧
      (∀ x ∈ (checkOlderReleases dm versions gs).2.2, olderIncludedOk x) := by
  induction versions with
  | nil =>
    intro gs hne hty
    refine ⟨⟨[], rfl⟩, Or.inl rfl, ?_, ?_⟩
    · intro p p2 hp hp2
      simp only [checkOlderReleases] at hp
      rcases p with _ | ⟨a, p⟩
      · simp only [List.nil_append] at hp
        exact absurd hp.symm hp2
      · simp at hp
    · intro x hx
      simp [checkOlderReleases] at hx
  | cons v rest ih =>
    intro gs hne hty
    simp only [checkOlderReleases]
    have hinv := probeRelease_inv (dm v) gs hty
    by_cases hemp : (probeRelease (dm v) gs).1.2.isEmpty
    · rw [if_pos hemp]
      have hmiss : missingAfter dm gs [v] = [] := by
        unfold missingAfter probeStep
        simpa using hemp
      refine ⟨⟨rest, rfl⟩, Or.inr hmiss, ?_, ?_⟩
      · intro p p2 hp hp2
        rcases p with _ | ⟨a, p⟩
        · intro hm
          unfold missingAfter at hm
          simp only [List.foldl_nil] at hm
          exact hne hm
        · rcases List.cons_eq_cons.mp hp.symm with ⟨ha, hp'⟩
          have h0 : p2 = [] := (List.append_eq_nil.mp hp').2
          exact absurd h0 hp2
      · exact hinv.2
    · rw [if_neg hemp]
      have hne2 : (probeRelease (dm v) gs).1.2 ≠ [] := by
        intro h
        exact hemp (List.isEmpty_iff.mpr h)
      have hrec := ih (probeRelease (dm v) gs).1 hne2 hinv.1
      have hmaft : ∀ p, missingAfter dm gs (v :: p) =
          missingAfter dm (probeRelease (dm v) gs).1 p := by
        intro p
        unfold missingAfter
        simp only [List.foldl_cons]
        rfl
      refine ⟨?_, ?_, ?_, ?_⟩
      · obtain ⟨t, ht⟩ := hrec.1
        exact ⟨t, by rw [List.cons_append, ← ht]⟩
      · rcases hrec.2.1 with h | h
        · exact Or.inl (by rw [h])
        · exact Or.inr (by rw [hmaft]; exact h)
      · intro p p2 hp hp2
        rcases p with _ | ⟨a, p⟩
        · intro hm
          unfold missingAfter at hm
          simp only [List.foldl_nil] at hm
          exact hne hm
        · rcases List.cons_eq_cons.mp hp with ⟨ha, hp'⟩
          subst ha
          rw [hmaft]
          exact hrec.2.2.1 p p2 hp' hp2
      · intro x hx
        simp only at hx
        rcases List.mem_append.mp hx with h | h
        · exact hinv.2 x h
        · exact hrec.2.2.2 x h

/-! ### C4 -/

/-- C4: when the older-release phase starts, only bootloaders and user parts
are missing; the candidate list holds exactly the valid release versions
strictly less than the requested one, in descending semver order; at most
MAX_OLDER_RELEASES_TO_CHECK of them are probed, in order; only modules whose
file matches /bootloader/i (for a missing bootloader) or /tinker/i (for a
missing user part) are included; and the loop stops as soon as no module is
missing. -/
theorem c4_backfill_older_releases (env : BackfillEnv) (version : String)
    (modules : List Module)
    (htrans : ∀ a b c, env.semverLe a b = true → env.semverLe b c = true →
      env.semverLe a c = true)
    (htotal : ∀ a b, (env.semverLe a b || env.semverLe b a) = true) :
    missingTypesOk (backfillEntry env modules).2 ∧
    (∀ v ∈ listOlderReleaseVersions env.semverValid env.semverLt
        env.semverLe env.releases version,
      env.semverLt v version = true ∧ env.semverValid v = true) ∧
    (∀ r ∈ env.releases, r.tagName ≠ "" →
      env.semverValid (stripV r.tagName) = true →
      env.semverLt (stripV r.tagName) version = true →
      stripV r.tagName ∈ listOlderReleaseVersions env.semverValid
        env.semverLt env.semverLe env.releases version) ∧
    List.Chain' (fun a b => env.semverLe b a = true)
      (listOlderReleaseVersions env.semverValid env.semverLt env.semverLe
        env.releases version) ∧
    (∃ t, backfillCandidates env version =
      (findMissingBinaries env version modules).2.1 ++ t) ∧
    (findMissingBinaries env version modules).2.1.length ≤
      MAX_OLDER_RELEASES_TO_CHECK ∧
    (∀ m ∈ (findMissingBinaries env version modules).2.2,
      olderIncludedOk m) ∧
    (∀ p p2, (findMissingBinaries env version modules).2.1 = p ++ p2 →
      p2 ≠ [] →
      missingAfter env.downloadMods (backfillEntry env modules) p ≠ []) ∧
    ((findMissingBinaries env version modules).2.1 =
        backfillCandidates env version ∨
      missingAfter env.downloadMods (backfillEntry env modules)
        (findMissingBinaries env version modules).2.1 = []) := by
  have hlist := listOlderReleaseVersions_spec env.semverValid env.semverLt
    env.semverLe env.releases version htrans htotal
  have htypes := backfillEntry_typesOk env modules
  refine ⟨htypes, hlist.1, hlist.2.1, hlist.2.2, ?_⟩
  simp only [findMissingBinaries]
  by_cases hemp : (backfillEntry env modules).2.isEmpty
  · rw [if_neg (by simp [hemp])]
    refine ⟨⟨backfillCandidates env version, rfl⟩, by simp, by simp, ?_, ?_⟩
    · intro p p2 hp hp2
      rcases p with _ | ⟨a, p⟩
      · simp only [List.nil_append] at hp
        exact absurd hp.symm hp2
      · simp at hp
    · exact Or.inr (List.isEmpty_iff.mp hemp)
  · rw [if_pos (by simp [hemp])]
    have hne : (backfillEntry env modules).2 ≠ [] := by
      intro h
      exact hemp (List.isEmpty_iff.mpr h)
    have hspec := checkOlderReleases_spec env.downloadMods
      (backfillCandidates env version) (backfillEntry env modules) hne htypes
    obtain ⟨⟨t, ht⟩, hstop2, hstop1, hincl⟩ := hspec
    refine ⟨⟨t, ht⟩, ?_, hincl, hstop1, hstop2⟩
    have hlen : (backfillCandidates env version).length ≤
        MAX_OLDER_RELEASES_TO_CHECK := by
      unfold backfillCandidates
      rw [List.length_take]
      exact min_le_left _ _
    have hl := congrArg List.length ht
    rw [List.length_append] at hl
    omega

/-- Witness for C4: a boron user part with no bootloader in the release; the
comparator hypotheses hold for the string order used in the test
environment. -/
theorem c4_backfill_older_releases_witness :
    (∀ a b c, exBackfillEnv.semverLe a b = true →
      exBackfillEnv.semverLe b c = true →
      exBackfillEnv.semverLe a c = true) ∧
    (∀ a b, (exBackfillEnv.semverLe a b || exBackfillEnv.semverLe b a) =
      true) ∧
    missingTypesOk (backfillEntry exBackfillEnv [exUserPartTinker]).2 ∧
    (∀ m ∈ (findMissingBinaries exBackfillEnv "2.1.0"
        [exUserPartTinker]).2.2, olderIncludedOk m) := by
  have htrans : ∀ a b c, exBackfillEnv.semverLe a b = true →
      exBackfillEnv.semverLe b c = true →
      exBackfillEnv.semverLe a c = true := by
    intro a b c h1 h2
    simp only [exBackfillEnv, decide_eq_true_eq] at h1 h2 ⊢
    exact le_trans h1 h2
  have htotal : ∀ a b,
      (exBackfillEnv.semverLe a b || exBackfillEnv.semverLe b a) = true := by
    intro a b
    simp only [exBackfillEnv, Bool.or_eq_true, decide_eq_true_eq]
    exact le_total a b
  have h := c4_backfill_older_releases exBackfillEnv "2.1.0"
    [exUserPartTinker] htrans htotal
  exact ⟨htrans, htotal, h.1, h.2.2.2.2.2.2.1⟩

/-! ### C3 helper lemmas -/

/-- lookup misses when no entry carries the key. -/
theorem lookup_eq_none_of_forall {β : Type} (fs : List (String × β))
    (p : String) (h : ∀ e ∈ fs, e.1 ≠ p) : fs.lookup p = none := by
  induction fs with
  | nil => rfl
  | cons e rest ih =>
    obtain ⟨k, v⟩ := e
    have hk : (p == k) = false := by
      have := h (k, v) (by simp)
      simp only at this
      simp [Ne.symm this]
    rw [List.lookup_cons, hk]
    exact ih (fun e he => h e (List.mem_cons_of_mem _ he))

/-- lookup distributes over append. -/
theorem lookup_append {β : Type} (l1 l2 : List (String × β)) (k : String) :
    (l1 ++ l2).lookup k = ((l1.lookup k).or (l2.lookup k)) := by
  induction l1 with
  | nil => simp
  | cons e rest ih =>
    obtain ⟨k0, v⟩ := e
    rcases h : k == k0 with _ | _
    · simp only [List.cons_append, List.lookup_cons, h]
      exact ih
    · simp only [List.cons_append, List.lookup_cons, h]
      rfl

/-- With pairwise-distinct destinations the commit loop appends one cache
file and one repointed record per module. -/
theorem foldl_commitStep_fresh (platformName : Nat → String)
    (version : String) (srcFs : List (String × BinContent))
    (mods : List Module) :
    ∀ acc1 acc2,
      (∀ m ∈ mods, ∀ e ∈ acc1, e.1 ≠ cacheDest platformName version m) →
      (mods.map (cacheDest platformName version)).Nodup →
      mods.foldl (commitStep platformName version srcFs) (acc1, acc2) =
        (acc1 ++ mods.map (fun m => (cacheDest platformName version m,
            (srcFs.lookup m.file).getD none)),
         acc2 ++ mods.map (fun m =>
            { m with file := cacheDest platformName version m })) := by
  induction mods with
  | nil =>
    intro acc1 acc2 _ _
    simp
  | cons m rest ih =>
    intro acc1 acc2 hfresh hnodup
    simp only [List.foldl_cons, List.map_cons]
    have hdest : acc1.lookup (cacheDest platformName version m) = none :=
      lookup_eq_none_of_forall _ _
        (fun e he => hfresh m (by simp) e he)
    have hstep : commitStep platformName version srcFs (acc1, acc2) m =
        (acc1 ++ [(cacheDest platformName version m,
          (srcFs.lookup m.file).getD none)],
         acc2 ++ [{ m with file := cacheDest platformName version m }]) := by
      simp only [commitStep, fsWrite, hdest]
      simp
    rw [hstep, ih]
    · simp
    · intro m2 hm2 e he
      rcases List.mem_append.mp he with h | h
      · exact hfresh m2 (List.mem_cons_of_mem _ hm2) e h
      · simp only [List.mem_singleton] at h
        subst h
        show cacheDest platformName version m ≠
          cacheDest platformName version m2
        simp only [List.map_cons, List.nodup_cons] at hnodup
        intro hcontra
        exact hnodup.1 (by rw [hcontra]; exact List.mem_map_of_mem _ hm2)
    · simp only [List.map_cons, List.nodup_cons] at hnodup
      exact hnodup.2

/-- With fresh, pairwise-distinct keys the parse loop appends one entry per
successfully parsed file. -/
theorem foldl_parseInsertStep_fresh (platformName : Nat → String)
    (files : List (String × BinContent)) :
    ∀ (ws : List Module) (acc : List (String × Module)),
      files.map (fun fc => parseModuleBinary fc.1 fc.2) = ws.map some →
      (∀ w ∈ ws, acc.lookup (moduleKey platformName w) = none) →
      (ws.map (moduleKey platformName)).Nodup →
      files.foldl (parseInsertStep platformName) acc =
        acc ++ ws.map (fun w => (moduleKey platformName w, w)) := by
  induction files with
  | nil =>
    intro ws acc hm _ _
    cases ws with
    | nil => simp
    | cons w ws => simp at hm
  | cons fc rest ih =>
    intro ws acc hm hfresh hnodup
    cases ws with
    | nil => simp at hm
    | cons w ws =>
      simp only [List.map_cons, List.cons.injEq] at hm
      obtain ⟨h1, h2⟩ := hm
      simp only [List.foldl_cons, List.map_cons]
      have hstep : parseInsertStep platformName acc fc =
          acc ++ [(moduleKey platformName w, w)] := by
        simp only [parseInsertStep, h1, insertParsed,
          hfresh w (by simp)]
      rw [hstep, ih ws _ h2]
      · simp
      · intro w2 hw2
        rw [lookup_append, hfresh w2 (List.mem_cons_of_mem _ hw2)]
        have hne : (moduleKey platformName w2 ==
            moduleKey platformName w) = false := by
          simp only [List.map_cons, List.nodup_cons] at hnodup
          have : moduleKey platformName w2 ≠ moduleKey platformName w := by
            intro hcontra
            exact hnodup.1 (hcontra ▸ List.mem_map_of_mem _ hw2)
          simp [this]
        rw [List.lookup_cons, hne]
        rfl
      · simp only [List.map_cons, List.nodup_cons] at hnodup
        exact hnodup.2

/-! ### C3 (corrected: the round trip needs distinct cache destinations) -/

/-- Counterexample to C3 as stated: two modules of the same platform with the
same file basename but different indices survive canonicalization with
distinct keys (a legitimate cold-run result with consistent file contents),
yet the cache copy overwrites one file with the other, so the warm run
returns a different (platform, type, index, version) set than the cold
run. -/
theorem c3_counterexample_basename_collision :
    (∀ m ∈ [exModA, exModB],
      exSrcFs.lookup m.file = some (some (coreOf m))) ∧
    (List.map (moduleKey (fun _ => "p")) [exModA, exModB]).Nodup ∧
    moduleQuad (fun _ => "p") exModA ∈
      ((cacheReleaseModules (fun _ => "p") "2.1.0" [exModA, exModB]
        exSrcFs).2.map (moduleQuad (fun _ => "p"))) ∧
    moduleQuad (fun _ => "p") exModA ∉
      ((parseModuleBinaries (fun _ => "p")
        (cacheReleaseModules (fun _ => "p") "2.1.0" [exModA, exModB]
          exSrcFs).1).map (moduleQuad (fun _ => "p"))) := by
  refine ⟨by decide, by decide, by decide, by decide⟩

/-- C3 as amended: for a non-draft release, when no two modules of the cold
run share a cache destination (platform name plus file basename), the warm
fast path re-parses the cache directory to exactly the cold run's
(platform, type, index, version) list: same set, same order. -/
theorem c3_cache_round_trip (platformName : Nat → String) (version : String)
    (mods : List Module) (srcFs : List (String × BinContent))
    (hkeys : (mods.map (moduleKey platformName)).Nodup)
    (hdest : (mods.map (cacheDest platformName version)).Nodup)
    (hcontent : ∀ m ∈ mods,
      srcFs.lookup m.file = some (some (coreOf m))) :
    (parseModuleBinaries platformName
        (cacheReleaseModules platformName version mods srcFs).1).map
      (moduleQuad platformName) =
      (cacheReleaseModules platformName version mods srcFs).2.map
        (moduleQuad platformName) ∧
    (cacheReleaseModules platformName version mods srcFs).2.map
        (moduleQuad platformName) = mods.map (moduleQuad platformName) := by
  have hcommit := foldl_commitStep_fresh platformName version srcFs mods
    [] [] (by simp) hdest
  unfold cacheReleaseModules
  rw [hcommit]
  simp only [List.nil_append]
  constructor
  · unfold parseModuleBinaries
    rw [foldl_parseInsertStep_fresh platformName _
      (mods.map (fun m => { coreOf m with
        file := cacheDest platformName version m })) [] ?hmatch (by simp)
      ?hnodup]
    · simp only [List.nil_append, List.map_map]
      apply List.map_congr_left
      intro m hm
      rfl
    case hmatch =>
      rw [List.map_map, List.map_map]
      apply List.map_congr_left
      intro m hm
      simp only [Function.comp_apply]
      rw [hcontent m hm]
      rfl
    case hnodup =>
      rw [List.map_map]
      exact hkeys
  · rw [List.map_map]
    apply List.map_congr_left
    intro m hm
    rfl

/-- Witness for the amended C3 at concrete modules with distinct
destinations. -/
theorem c3_cache_round_trip_witness :
    (parseModuleBinaries (fun _ => "boron")
        (cacheReleaseModules (fun _ => "boron") "2.1.0"
          [exUserPartTinker, exBootModule]
          [("b/tinker-boron.bin", some (coreOf exUserPartTinker)),
           ("boron-bootloader@2.0.1.bin", some (coreOf exBootModule))]).1).map
      (moduleQuad (fun _ => "boron")) =
      [exUserPartTinker, exBootModule].map (moduleQuad (fun _ => "boron")) := by
  have h := c3_cache_round_trip (fun _ => "boron") "2.1.0"
    [exUserPartTinker, exBootModule]
    [("b/tinker-boron.bin", some (coreOf exUserPartTinker)),
     ("boron-bootloader@2.0.1.bin", some (coreOf exBootModule))]
    (by decide) (by decide) (by decide)
  rw [h.1, h.2]

/-! ### C5 helper lemmas -/

/-- consumeDirect distributes over trace concatenation. -/
theorem consumeDirect_append (es1 es2 : List FEvent) :
    ∀ mods, consumeDirect mods (es1 ++ es2) =
      (consumeDirect mods es1).bind
        (fun m2 => consumeDirect m2 es2) := by
  induction es1 with
  | nil =>
    intro mods
    simp [consumeDirect]
  | cons e es ih =>
    intro mods
    cases e
    case write m ok =>
      cases mods with
      | nil => simp [consumeDirect]
      | cons m0 rest =>
        by_cases h : m = m0 <;> simp [consumeDirect, h, ih]
    case skipEncrypted m =>
      cases mods with
      | nil => simp [consumeDirect]
      | cons m0 rest =>
        by_cases h : m = m0 <;> simp [consumeDirect, h, ih]
    all_goals simp [consumeDirect, ih]

/-- consumeOta distributes over trace concatenation. -/
theorem consumeOta_append (es1 es2 : List FEvent) :
    ∀ mods, consumeOta mods (es1 ++ es2) =
      (consumeOta mods es1).bind (fun m2 => consumeOta m2 es2) := by
  induction es1 with
  | nil =>
    intro mods
    simp [consumeOta]
  | cons e es ih =>
    intro mods
    cases e
    case otaFlash m ok rp sh =>
      cases mods with
      | nil => simp [consumeOta]
      | cons m0 rest =>
        by_cases h : m = m0 <;> simp [consumeOta, h, ih]
    all_goals simp [consumeOta, ih]

/-- Module-free events leave the direct consume state unchanged. -/
theorem consumeDirect_noMod (es : List FEvent)
    (h : ∀ e ∈ es, noModEvent e = true) :
    ∀ mods, consumeDirect mods es = some mods := by
  induction es with
  | nil =>
    intro mods
    rfl
  | cons e es ih =>
    intro mods
    have he := h e (by simp)
    have hrest : ∀ e2 ∈ es, noModEvent e2 = true :=
      fun e2 h2 => h e2 (List.mem_cons_of_mem _ h2)
    cases e <;> simp [noModEvent] at he <;>
      simp [consumeDirect, ih hrest]

/-- Module-free events leave the update-request consume state unchanged. -/
theorem consumeOta_noMod (es : List FEvent)
    (h : ∀ e ∈ es, noModEvent e = true) :
    ∀ mods, consumeOta mods es = some mods := by
  induction es with
  | nil =>
    intro mods
    rfl
  | cons e es ih =>
    intro mods
    have he := h e (by simp)
    have hrest : ∀ e2 ∈ es, noModEvent e2 = true :=
      fun e2 h2 => h e2 (List.mem_cons_of_mem _ h2)
    cases e <;> simp [noModEvent] at he <;>
      simp [consumeOta, ih hrest]

/-- The reset tail of a direct iteration: only direct events, and the
consume state is preserved. -/
theorem flashIterFinish_spec (oracle : Nat → Bool)
    (mods0 mods : List Module) (nr : Bool) (k : Nat) (ev : List FEvent)
    (hev : ∀ e ∈ ev, directEvent e = true)
    (hc : consumeDirect mods0 ev = some mods) :
    (∀ e ∈ iterEvents (flashIterFinish oracle mods nr k ev),
      directEvent e = true) ∧
    consumeDirect mods0 (iterEvents (flashIterFinish oracle mods nr k ev)) =
      some (iterMods (flashIterFinish oracle mods nr k ev)) := by
  unfold flashIterFinish
  split
  · split
    · refine ⟨List.forall_mem_append.mpr ⟨hev, by simp [directEvent]⟩, ?_⟩
      simp only [iterEvents, iterMods]
      rw [consumeDirect_append, hc]
      simp [consumeDirect]
    · refine ⟨List.forall_mem_append.mpr ⟨hev, by simp [directEvent]⟩, ?_⟩
      simp only [iterEvents, iterMods]
      rw [consumeDirect_append, hc]
      simp [consumeDirect]
  · exact ⟨by simpa [iterEvents] using hev,
      by simpa [iterEvents, iterMods] using hc⟩

/-- The head-module step of a direct iteration: only direct events, and the
write or skip targets the head of the consume state. -/
theorem flashIterDo_spec (enc : List (ModuleType × Nat))
    (oracle : Nat → Bool) (m : Module) (rest : List Module) (nr : Bool)
    (k : Nat) (ev : List FEvent) (mods0 : List Module)
    (hev : ∀ e ∈ ev, directEvent e = true)
    (hc : consumeDirect mods0 ev = some (m :: rest)) :
    (∀ e ∈ iterEvents (flashIterDo enc oracle m rest nr k ev),
      directEvent e = true) ∧
    consumeDirect mods0 (iterEvents (flashIterDo enc oracle m rest nr k ev))
      = some (iterMods (flashIterDo enc oracle m rest nr k ev)) := by
  unfold flashIterDo
  split
  · refine ⟨List.forall_mem_append.mpr ⟨hev, by simp [directEvent]⟩, ?_⟩
    simp only [iterEvents, iterMods]
    rw [consumeDirect_append, hc]
    simp [consumeDirect]
  · split
    · have h2 : consumeDirect mods0 (ev ++ [FEvent.write m true]) =
          some rest := by
        rw [consumeDirect_append, hc]
        simp [consumeDirect]
      exact flashIterFinish_spec oracle mods0 rest _ _ _
        (List.forall_mem_append.mpr ⟨hev, by simp [directEvent]⟩) h2
    · refine ⟨List.forall_mem_append.mpr ⟨hev, by simp [directEvent]⟩, ?_⟩
      simp only [iterEvents, iterMods]
      rw [consumeDirect_append, hc]
      simp [consumeDirect]

/-- One direct-phase iteration: only direct events, and the consume relation
holds between the entry module list and the iteration result. -/
theorem flashIter_spec (enc : List (ModuleType × Nat)) (oracle : Nat → Bool)
    (mods : List Module) (nr io : Bool) (k : Nat) :
    (∀ e ∈ iterEvents (flashIter enc oracle mods nr io k),
      directEvent e = true) ∧
    consumeDirect mods (iterEvents (flashIter enc oracle mods nr io k)) =
      some (iterMods (flashIter enc oracle mods nr io k)) := by
  have hbody : ∀ (prepare : Bool) (k2 : Nat) (ev : List FEvent),
      (∀ e ∈ ev, directEvent e = true) →
      consumeDirect mods ev = some mods →
      (∀ e ∈ iterEvents (flashIterModule enc oracle mods nr prepare k2 ev),
        directEvent e = true) ∧
      consumeDirect mods
          (iterEvents (flashIterModule enc oracle mods nr prepare k2 ev)) =
        some (iterMods (flashIterModule enc oracle mods nr prepare k2 ev)) := by
    intro prepare k2 ev hev hc
    unfold flashIterModule
    split
    · exact flashIterFinish_spec oracle _ [] nr k2 ev hev hc
    · rename_i m rest
      split
      · split
        · exact flashIterDo_spec enc oracle m rest nr _ _ _
            (List.forall_mem_append.mpr ⟨hev, by simp [directEvent]⟩)
            (by rw [consumeDirect_append, hc]; simp [consumeDirect])
        · refine ⟨List.forall_mem_append.mpr
            ⟨hev, by simp [directEvent]⟩, ?_⟩
          simp only [iterEvents, iterMods]
          rw [consumeDirect_append, hc]
          simp [consumeDirect]
      · exact flashIterDo_spec enc oracle m rest nr _ _ _ hev hc
  unfold flashIter
  split
  · exact hbody false k [] (by simp) rfl
  · split
    · exact hbody true (k + 1) [FEvent.devOpen true]
        (by simp [directEvent]) (by simp [consumeDirect])
    · exact ⟨by simp [iterEvents, directEvent],
        by simp [iterEvents, iterMods, consumeDirect]⟩

/-- The catch block emits at most one close event. -/
theorem flashCatch_fst (ce : Bool → FEvent) (oracle : Nat → Bool)
    (io : Bool) (retries k : Nat) :
    (flashCatch ce oracle io retries k).1 = [] ∨
    (flashCatch ce oracle io retries k).1 = [ce true] ∨
    (flashCatch ce oracle io retries k).1 = [ce false] := by
  unfold flashCatch
  split
  · split
    · split
      · exact Or.inr (Or.inl rfl)
      · exact Or.inr (Or.inl rfl)
    · exact Or.inr (Or.inr rfl)
  · split
    · exact Or.inl rfl
    · exact Or.inl rfl

/-- The remaining modules of a direct consume are among the entry
modules. -/
theorem consumeDirect_sublist (es : List FEvent) :
    ∀ mods rem, consumeDirect mods es = some rem → ∀ m ∈ rem, m ∈ mods := by
  induction es with
  | nil =>
    intro mods rem h
    simp [consumeDirect] at h
    subst h
    exact fun m hm => hm
  | cons e es ih =>
    intro mods rem h
    cases e
    case write m ok =>
      cases mods with
      | nil => simp [consumeDirect] at h
      | cons m0 rest =>
        simp only [consumeDirect] at h
        by_cases hm : m = m0
        · rw [if_pos hm] at h
          cases ok with
          | true =>
            simp only [if_pos rfl] at h
            exact fun x hx => List.mem_cons_of_mem _ (ih _ _ h x hx)
          | false =>
            simp only [Bool.false_eq_true, if_neg] at h
            exact ih _ _ h
        · rw [if_neg hm] at h
          exact absurd h (by simp)
    case skipEncrypted m =>
      cases mods with
      | nil => simp [consumeDirect] at h
      | cons m0 rest =>
        simp only [consumeDirect] at h
        by_cases hm : m = m0
        · rw [if_pos hm] at h
          exact fun x hx => List.mem_cons_of_mem _ (ih _ _ h x hx)
        · rw [if_neg hm] at h
          exact absurd h (by simp)
    all_goals
      simp only [consumeDirect] at h
    all_goals
      exact ih _ _ h

/-- The remaining modules of an update-request consume are among the entry
modules. -/
theorem consumeOta_sublist (es : List FEvent) :
    ∀ mods rem, consumeOta mods es = some rem → ∀ m ∈ rem, m ∈ mods := by
  induction es with
  | nil =>
    intro mods rem h
    simp [consumeOta] at h
    subst h
    exact fun m hm => hm
  | cons e es ih =>
    intro mods rem h
    cases e
    case otaFlash m ok rp sh =>
      cases mods with
      | nil => simp [consumeOta] at h
      | cons m0 rest =>
        simp only [consumeOta] at h
        by_cases hm : m = m0
        · rw [if_pos hm] at h
          cases sh with
          | true =>
            simp only [if_pos rfl] at h
            exact fun x hx => List.mem_cons_of_mem _ (ih _ _ h x hx)
          | false =>
            simp only [Bool.false_eq_true, if_neg] at h
            exact ih _ _ h
        · rw [if_neg hm] at h
          exact absurd h (by simp)
    all_goals
      simp only [consumeOta] at h
    all_goals
      exact ih _ _ h

/-- The direct-phase loop: only direct events, each write or skip targets
the first unprocessed module of the partition (input order, resuming after
failures from the first not-yet-processed module), and an ok outcome leaves
no module unprocessed. -/
theorem flashLoop_direct (enc : List (ModuleType × Nat))
    (oracle : Nat → Bool) :
    ∀ (fuel : Nat) (mods : List Module) (nr io : Bool) (retries k : Nat),
    (∀ e ∈ (flashLoop enc oracle fuel mods nr io retries k).1,
      directEvent e = true) ∧
    ∃ rem, consumeDirect mods
        (flashLoop enc oracle fuel mods nr io retries k).1 = some rem ∧
      ((flashLoop enc oracle fuel mods nr io retries k).2.1 =
        FlashOutcome.ok → rem = []) := by
  intro fuel
  induction fuel with
  | zero =>
    intro mods nr io retries k
    exact ⟨by simp [flashLoop], mods, by simp [flashLoop, consumeDirect],
      by simp [flashLoop]⟩
  | succ fuel ih =>
    intro mods nr io retries k
    by_cases hm : (mods.isEmpty && !nr) = true
    · have hmods : mods = [] := by
        have h2 := hm
        simp [List.isEmpty_iff] at h2
        exact h2.1
      simp only [flashLoop]
      rw [if_pos hm]
      split
      · refine ⟨?_, [], ?_, fun _ => rfl⟩
        · intro e he
          simp at he
          subst he
          rfl
        · rw [hmods]
          simp [consumeDirect]
      · refine ⟨by simp, [], ?_, fun _ => rfl⟩
        rw [hmods]
        simp [consumeDirect]
    · rw [Bool.not_eq_true] at hm
      cases hit : flashIter enc oracle mods nr io k with
      | stepped ev mods2 nr2 o2 k2 =>
        have hval : flashLoop enc oracle (fuel + 1) mods nr io retries k =
            (ev ++ (flashLoop enc oracle fuel mods2 nr2 o2 retries k2).1,
             (flashLoop enc oracle fuel mods2 nr2 o2 retries k2).2) := by
          simp only [flashLoop]
          rw [if_neg (by simp [hm]), hit]
        have hspec := flashIter_spec enc oracle mods nr io k
        rw [hit] at hspec
        simp only [iterEvents, iterMods] at hspec
        obtain ⟨ihev, rem, ihc, ihok⟩ := ih mods2 nr2 o2 retries k2
        rw [hval]
        refine ⟨List.forall_mem_append.mpr ⟨hspec.1, ihev⟩, rem, ?_, ihok⟩
        rw [consumeDirect_append, hspec.2]
        simpa using ihc
      | thrown ev mods2 nr2 io2 k2 =>
        have hspec := flashIter_spec enc oracle mods nr io k
        rw [hit] at hspec
        simp only [iterEvents, iterMods] at hspec
        have hcev : ∀ e ∈ (flashCatch FEvent.devClose oracle io2
            retries k2).1, directEvent e = true ∧ noModEvent e = true := by
          intro e he
          rcases flashCatch_fst FEvent.devClose oracle io2 retries k2
            with h | h | h <;> rw [h] at he <;> simp at he <;>
            subst he <;> exact ⟨rfl, rfl⟩
        have hcons : consumeDirect mods2 (flashCatch FEvent.devClose oracle
            io2 retries k2).1 = some mods2 :=
          consumeDirect_noMod _ (fun e he => (hcev e he).2) mods2
        cases hcc : (flashCatch FEvent.devClose oracle io2 retries k2).2 with
        | none =>
          have hval : flashLoop enc oracle (fuel + 1) mods nr io retries k =
              (ev ++ (flashCatch FEvent.devClose oracle io2 retries k2).1,
               FlashOutcome.error, retries, k2) := by
            simp only [flashLoop]
            rw [if_neg (by simp [hm]), hit]
            dsimp only
            rw [hcc]
          rw [hval]
          refine ⟨List.forall_mem_append.mpr
            ⟨hspec.1, fun e he => (hcev e he).1⟩, mods2, ?_, ?_⟩
          · rw [consumeDirect_append, hspec.2]
            simpa using hcons
          · intro h
            exact absurd h (by simp)
        | some rk =>
          have hval : flashLoop enc oracle (fuel + 1) mods nr io retries k =
              (ev ++ (flashCatch FEvent.devClose oracle io2 retries k2).1 ++
                 (flashLoop enc oracle fuel mods2 nr2 false rk.1 rk.2).1,
               (flashLoop enc oracle fuel mods2 nr2 false rk.1 rk.2).2) := by
            simp only [flashLoop]
            rw [if_neg (by simp [hm]), hit]
            dsimp only
            rw [hcc]
          obtain ⟨ihev, rem, ihc, ihok⟩ := ih mods2 nr2 false rk.1 rk.2
          rw [hval]
          refine ⟨?_, rem, ?_, ihok⟩
          · exact List.forall_mem_append.mpr
              ⟨List.forall_mem_append.mpr
                ⟨hspec.1, fun e he => (hcev e he).1⟩, ihev⟩
          · rw [consumeDirect_append, consumeDirect_append, hspec.2]
            simp [hcons, ihc]

/-- Unfolding the module section on a nonempty list. -/
theorem flashIterModule_cons_eq (enc : List (ModuleType × Nat))
    (oracle : Nat → Bool) (m : Module) (rest : List Module)
    (nr prepare : Bool) (k : Nat) (ev : List FEvent) :
    flashIterModule enc oracle (m :: rest) nr prepare k ev =
      if prepare then
        if oracle k then
          flashIterDo enc oracle m rest nr (k + 1)
            (ev ++ [FEvent.devPrepare true])
        else
          IterResult.thrown (ev ++ [FEvent.devPrepare false]) (m :: rest)
            nr true (k + 1)
      else flashIterDo enc oracle m rest nr k ev := rfl

/-- A stepped reset tail keeps the modules, and a cleared reset flag means
it was never set or a reset ran. -/
theorem flashIterFinish_stepped (oracle : Nat → Bool) (mods : List Module)
    (nr : Bool) (k : Nat) (ev ev2 : List FEvent) (mods2 : List Module)
    (nr2 o2 : Bool) (k2 : Nat)
    (h : flashIterFinish oracle mods nr k ev =
      IterResult.stepped ev2 mods2 nr2 o2 k2) :
    mods2 = mods ∧
      (nr2 = false → nr = false ∨ FEvent.devReset true ∈ ev2) := by
  unfold flashIterFinish at h
  split at h
  · split at h
    · cases h
      exact ⟨rfl, fun _ => Or.inr (by simp)⟩
    · cases h
  · cases h
    exact ⟨rfl, fun h2 => Or.inl h2⟩

/-- A thrown reset tail leaves the reset flag set. -/
theorem flashIterFinish_thrown (oracle : Nat → Bool) (mods : List Module)
    (nr : Bool) (k : Nat) (ev ev2 : List FEvent) (mods2 : List Module)
    (nr2 io2 : Bool) (k2 : Nat)
    (h : flashIterFinish oracle mods nr k ev =
      IterResult.thrown ev2 mods2 nr2 io2 k2) :
    nr2 = true := by
  unfold flashIterFinish at h
  split at h
  · rename_i hnr
    split at h
    · cases h
    · cases h
      exact hnr
  · cases h

/-- A head-module step on a module the policy does not skip: when it steps
to an empty list with a cleared reset flag, a successful reset ran. -/
theorem flashIterDo_stepped_reset (enc : List (ModuleType × Nat))
    (oracle : Nat → Bool) (m : Module) (rest : List Module) (nr : Bool)
    (k : Nat) (ev ev2 : List FEvent) (mods2 : List Module) (nr2 o2 : Bool)
    (k2 : Nat) (hskip : encSkip enc m = false)
    (h : flashIterDo enc oracle m rest nr k ev =
      IterResult.stepped ev2 mods2 nr2 o2 k2)
    (hend : mods2 = [] ∧ nr2 = false) : FEvent.devReset true ∈ ev2 := by
  unfold flashIterDo at h
  rw [if_neg (by simp [hskip])] at h
  split at h
  · obtain ⟨hm2, himp⟩ := flashIterFinish_stepped oracle rest _ _ _ _ _ _ _
      _ h
    rcases himp hend.2 with hnr | hres
    · exfalso
      have hrest : rest = [] := hm2.symm.trans hend.1
      rw [hrest] at hnr
      simp at hnr
    · exact hres
  · cases h

/-- A thrown head-module step never reaches an empty list with a cleared
reset flag. -/
theorem flashIterDo_thrown (enc : List (ModuleType × Nat))
    (oracle : Nat → Bool) (m : Module) (rest : List Module) (nr : Bool)
    (k : Nat) (ev ev2 : List FEvent) (mods2 : List Module) (nr2 io2 : Bool)
    (k2 : Nat)
    (h : flashIterDo enc oracle m rest nr k ev =
      IterResult.thrown ev2 mods2 nr2 io2 k2) :
    ¬(mods2 = [] ∧ nr2 = false) := by
  unfold flashIterDo at h
  split at h
  · cases h
  · split at h
    · have h2 := flashIterFinish_thrown oracle rest _ _ _ _ _ _ _ _ h
      simp [h2]
    · cases h
      simp

/-- The module section without policy skips: stepping to an empty list with
a cleared reset flag entails a successful reset, given a live entry
state. -/
theorem flashIterModule_stepped_reset (enc : List (ModuleType × Nat))
    (oracle : Nat → Bool) (mods : List Module) (nr prepare : Bool) (k : Nat)
    (ev ev2 : List FEvent) (mods2 : List Module) (nr2 o2 : Bool) (k2 : Nat)
    (hns : ∀ m ∈ mods, encSkip enc m = false)
    (hentry : ¬(mods = [] ∧ nr = false))
    (h : flashIterModule enc oracle mods nr prepare k ev =
      IterResult.stepped ev2 mods2 nr2 o2 k2)
    (hend : mods2 = [] ∧ nr2 = false) : FEvent.devReset true ∈ ev2 := by
  cases mods with
  | nil =>
    have hnr : nr = true := by
      rcases Bool.eq_false_or_eq_true nr with h0 | h0
      · exact h0
      · exact absurd ⟨rfl, h0⟩ hentry
    unfold flashIterModule at h
    obtain ⟨hm2, himp⟩ := flashIterFinish_stepped oracle [] nr k ev _ _ _ _
      _ h
    rcases himp hend.2 with h0 | h0
    · rw [hnr] at h0
      cases h0
    · exact h0
  | cons m rest =>
    have hskip : encSkip enc m = false := hns m (by simp)
    rw [flashIterModule_cons_eq] at h
    split at h
    · split at h
      · exact flashIterDo_stepped_reset enc oracle m rest nr _ _ _ _ _ _ _
          hskip h hend
      · cases h
    · exact flashIterDo_stepped_reset enc oracle m rest nr _ _ _ _ _ _ _
        hskip h hend

/-- A thrown module section never reaches an empty list with a cleared
reset flag. -/
theorem flashIterModule_thrown (enc : List (ModuleType × Nat))
    (oracle : Nat → Bool) (mods : List Module) (nr prepare : Bool) (k : Nat)
    (ev ev2 : List FEvent) (mods2 : List Module) (nr2 io2 : Bool) (k2 : Nat)
    (h : flashIterModule enc oracle mods nr prepare k ev =
      IterResult.thrown ev2 mods2 nr2 io2 k2) :
    ¬(mods2 = [] ∧ nr2 = false) := by
  cases mods with
  | nil =>
    unfold flashIterModule at h
    have h2 := flashIterFinish_thrown oracle [] nr k ev _ _ _ _ _ h
    simp [h2]
  | cons m rest =>
    rw [flashIterModule_cons_eq] at h
    split at h
    · split at h
      · exact flashIterDo_thrown enc oracle m rest nr _ _ _ _ _ _ _ h
      · cases h
        simp
    · exact flashIterDo_thrown enc oracle m rest nr _ _ _ _ _ _ _ h

/-- A stepped direct iteration on skip-free modules: reaching an empty list
with a cleared reset flag entails a successful reset event. -/
theorem flashIter_stepped_reset (enc : List (ModuleType × Nat))
    (oracle : Nat → Bool) (mods : List Module) (nr io : Bool) (k : Nat)
    (ev : List FEvent) (mods2 : List Module) (nr2 o2 : Bool) (k2 : Nat)
    (hns : ∀ m ∈ mods, encSkip enc m = false)
    (hentry : ¬(mods = [] ∧ nr = false))
    (h : flashIter enc oracle mods nr io k =
      IterResult.stepped ev mods2 nr2 o2 k2)
    (hend : mods2 = [] ∧ nr2 = false) : FEvent.devReset true ∈ ev := by
  unfold flashIter at h
  split at h
  · exact flashIterModule_stepped_reset enc oracle mods nr false k [] ev
      mods2 nr2 o2 k2 hns hentry h hend
  · split at h
    · exact flashIterModule_stepped_reset enc oracle mods nr true (k + 1)
        [FEvent.devOpen true] ev mods2 nr2 o2 k2 hns hentry h hend
    · cases h

/-- A thrown direct iteration preserves a live state. -/
theorem flashIter_thrown_entry (enc : List (ModuleType × Nat))
    (oracle : Nat → Bool) (mods : List Module) (nr io : Bool) (k : Nat)
    (ev : List FEvent) (mods2 : List Module) (nr2 io2 : Bool) (k2 : Nat)
    (hentry : ¬(mods = [] ∧ nr = false))
    (h : flashIter enc oracle mods nr io k =
      IterResult.thrown ev mods2 nr2 io2 k2) :
    ¬(mods2 = [] ∧ nr2 = false) := by
  unfold flashIter at h
  split at h
  · exact flashIterModule_thrown enc oracle mods nr false k [] ev mods2 nr2
      io2 k2 h
  · split at h
    · exact flashIterModule_thrown enc oracle mods nr true (k + 1)
        [FEvent.devOpen true] ev mods2 nr2 io2 k2 h
    · cases h
      exact hentry

/-- The direct-phase loop on skip-free modules: an ok outcome of a live
state includes a successful reset in its events. -/
theorem flashLoop_reset (enc : List (ModuleType × Nat))
    (oracle : Nat → Bool) :
    ∀ (fuel : Nat) (mods : List Module) (nr io : Bool) (retries k : Nat),
    (∀ m ∈ mods, encSkip enc m = false) →
    ¬(mods = [] ∧ nr = false) →
    (flashLoop enc oracle fuel mods nr io retries k).2.1 =
      FlashOutcome.ok →
    FEvent.devReset true ∈ (flashLoop enc oracle fuel mods nr io retries
      k).1 := by
  intro fuel
  induction fuel with
  | zero =>
    intro mods nr io retries k _ _ hok
    simp [flashLoop] at hok
  | succ fuel ih =>
    intro mods nr io retries k hns hentry hok
    have hm : (mods.isEmpty && !nr) = false := by
      cases hmm : (mods.isEmpty && !nr) with
      | false => rfl
      | true =>
        exfalso
        have h2 := hmm
        simp [List.isEmpty_iff] at h2
        exact hentry ⟨h2.1, h2.2⟩
    cases hit : flashIter enc oracle mods nr io k with
    | stepped ev mods2 nr2 o2 k2 =>
      have hval : flashLoop enc oracle (fuel + 1) mods nr io retries k =
          (ev ++ (flashLoop enc oracle fuel mods2 nr2 o2 retries k2).1,
           (flashLoop enc oracle fuel mods2 nr2 o2 retries k2).2) := by
        simp only [flashLoop]
        rw [if_neg (by simp [hm]), hit]
      rw [hval] at hok ⊢
      by_cases hend : mods2 = [] ∧ nr2 = false
      · exact List.mem_append.mpr (Or.inl (flashIter_stepped_reset enc
          oracle mods nr io k ev mods2 nr2 o2 k2 hns hentry hit hend))
      · have hspec := flashIter_spec enc oracle mods nr io k
        rw [hit] at hspec
        simp only [iterEvents, iterMods] at hspec
        have hns2 : ∀ m ∈ mods2, encSkip enc m = false :=
          fun m hm2 => hns m (consumeDirect_sublist ev mods mods2 hspec.2 m
            hm2)
        exact List.mem_append.mpr (Or.inr (ih mods2 nr2 o2 retries k2 hns2
          hend (by simpa using hok)))
    | thrown ev mods2 nr2 io2 k2 =>
      cases hcc : (flashCatch FEvent.devClose oracle io2 retries k2).2 with
      | none =>
        have hval : flashLoop enc oracle (fuel + 1) mods nr io retries k =
            (ev ++ (flashCatch FEvent.devClose oracle io2 retries k2).1,
             FlashOutcome.error, retries, k2) := by
          simp only [flashLoop]
          rw [if_neg (by simp [hm]), hit]
          dsimp only
          rw [hcc]
        rw [hval] at hok
        simp at hok
      | some rk =>
        have hval : flashLoop enc oracle (fuel + 1) mods nr io retries k =
            (ev ++ (flashCatch FEvent.devClose oracle io2 retries k2).1 ++
               (flashLoop enc oracle fuel mods2 nr2 false rk.1 rk.2).1,
             (flashLoop enc oracle fuel mods2 nr2 false rk.1 rk.2).2) := by
          simp only [flashLoop]
          rw [if_neg (by simp [hm]), hit]
          dsimp only
          rw [hcc]
        rw [hval] at hok ⊢
        have hentry2 := flashIter_thrown_entry enc oracle mods nr io k ev
          mods2 nr2 io2 k2 hentry hit
        have hspec := flashIter_spec enc oracle mods nr io k
        rw [hit] at hspec
        simp only [iterEvents, iterMods] at hspec
        have hns2 : ∀ m ∈ mods2, encSkip enc m = false :=
          fun m hm2 => hns m (consumeDirect_sublist ev mods mods2 hspec.2 m
            hm2)
        exact List.mem_append.mpr (Or.inr (ih mods2 nr2 false rk.1 rk.2
          hns2 hentry2 (by simpa using hok)))

/-- The reset tail of an update-request iteration: only update-request
events, and the consume state is preserved. -/
theorem otaIterFinish_spec (oracle : Nat → Bool)
    (mods0 mods : List Module) (nr : Bool) (k : Nat) (ev : List FEvent)
    (hev : ∀ e ∈ ev, otaEvent e = true)
    (hc : consumeOta mods0 ev = some mods) :
    (∀ e ∈ iterEvents (otaIterFinish oracle mods nr k ev),
      otaEvent e = true) ∧
    consumeOta mods0 (iterEvents (otaIterFinish oracle mods nr k ev)) =
      some (iterMods (otaIterFinish oracle mods nr k ev)) := by
  unfold otaIterFinish
  split
  · split
    · refine ⟨List.forall_mem_append.mpr ⟨hev, by simp [otaEvent]⟩, ?_⟩
      simp only [iterEvents, iterMods]
      rw [consumeOta_append, hc]
      simp [consumeOta]
    · refine ⟨List.forall_mem_append.mpr ⟨hev, by simp [otaEvent]⟩, ?_⟩
      simp only [iterEvents, iterMods]
      rw [consumeOta_append, hc]
      simp [consumeOta]
  · exact ⟨by simpa [iterEvents] using hev,
      by simpa [iterEvents, iterMods] using hc⟩

/-- The head-module step of an update-request iteration: only
update-request events, and every flash attempt targets the head of the
consume state; the module is consumed exactly when it was shifted. -/
theorem otaIterDo_spec (oracle pending : Nat → Bool) (m : Module)
    (rest : List Module) (nr : Bool) (k : Nat) (ev : List FEvent)
    (mods0 : List Module)
    (hev : ∀ e ∈ ev, otaEvent e = true)
    (hc : consumeOta mods0 ev = some (m :: rest)) :
    (∀ e ∈ iterEvents (otaIterDo oracle pending m rest nr k ev),
      otaEvent e = true) ∧
    consumeOta mods0 (iterEvents (otaIterDo oracle pending m rest nr k ev))
      = some (iterMods (otaIterDo oracle pending m rest nr k ev)) := by
  unfold otaIterDo
  split
  · split
    · split
      · refine ⟨List.forall_mem_append.mpr ⟨hev, by simp [otaEvent]⟩, ?_⟩
        simp only [iterEvents, iterMods]
        rw [consumeOta_append, hc]
        simp [consumeOta]
      · refine ⟨List.forall_mem_append.mpr ⟨hev, by simp [otaEvent]⟩, ?_⟩
        simp only [iterEvents, iterMods]
        rw [consumeOta_append, hc]
        simp [consumeOta]
    · have h2 : consumeOta mods0
          (ev ++ [FEvent.otaFlash m true false true]) = some rest := by
        rw [consumeOta_append, hc]
        simp [consumeOta]
      exact otaIterFinish_spec oracle mods0 rest _ _ _
        (List.forall_mem_append.mpr ⟨hev, by simp [otaEvent]⟩) h2
  · refine ⟨List.forall_mem_append.mpr ⟨hev, by simp [otaEvent]⟩, ?_⟩
    simp only [iterEvents, iterMods]
    rw [consumeOta_append, hc]
    simp [consumeOta]

/-- One update-request iteration: only update-request events, and the
consume relation holds between the entry module list and the iteration
result. -/
theorem otaIter_spec (oracle pending : Nat → Bool) (mods : List Module)
    (nr io : Bool) (k : Nat) :
    (∀ e ∈ iterEvents (otaIter oracle pending mods nr io k),
      otaEvent e = true) ∧
    consumeOta mods (iterEvents (otaIter oracle pending mods nr io k)) =
      some (iterMods (otaIter oracle pending mods nr io k)) := by
  have hbody : ∀ (prepare : Bool) (k2 : Nat) (ev : List FEvent),
      (∀ e ∈ ev, otaEvent e = true) →
      consumeOta mods ev = some mods →
      (∀ e ∈ iterEvents (otaIterModule oracle pending mods nr prepare k2
        ev), otaEvent e = true) ∧
      consumeOta mods
          (iterEvents (otaIterModule oracle pending mods nr prepare k2
            ev)) =
        some (iterMods (otaIterModule oracle pending mods nr prepare k2
          ev)) := by
    intro prepare k2 ev hev hc
    unfold otaIterModule
    split
    · exact otaIterFinish_spec oracle _ [] nr k2 ev hev hc
    · rename_i m rest
      split
      · split
        · exact otaIterDo_spec oracle pending m rest nr _ _ _
            (List.forall_mem_append.mpr ⟨hev, by simp [otaEvent]⟩)
            (by rw [consumeOta_append, hc]; simp [consumeOta])
        · refine ⟨List.forall_mem_append.mpr
            ⟨hev, by simp [otaEvent]⟩, ?_⟩
          simp only [iterEvents, iterMods]
          rw [consumeOta_append, hc]
          simp [consumeOta]
      · exact otaIterDo_spec oracle pending m rest nr _ _ _ hev hc
  unfold otaIter
  split
  · exact hbody false k [] (by simp) rfl
  · split
    · exact hbody true (k + 1) [FEvent.otaOpen true]
        (by simp [otaEvent]) (by simp [consumeOta])
    · exact ⟨by simp [iterEvents, otaEvent],
        by simp [iterEvents, iterMods, consumeOta]⟩

/-- The update-request loop: only update-request events, each flash
attempt targets the first module whose processing has not completed
(input order, resuming after failures from the first such module), and an
ok outcome leaves no module unprocessed. -/
theorem otaLoop_spec (oracle pending : Nat → Bool) :
    ∀ (fuel : Nat) (mods : List Module) (nr io : Bool) (retries k : Nat),
    (∀ e ∈ (otaLoop oracle pending fuel mods nr io retries k).1,
      otaEvent e = true) ∧
    ∃ rem, consumeOta mods
        (otaLoop oracle pending fuel mods nr io retries k).1 = some rem ∧
      ((otaLoop oracle pending fuel mods nr io retries k).2.1 =
        FlashOutcome.ok → rem = []) := by
  intro fuel
  induction fuel with
  | zero =>
    intro mods nr io retries k
    exact ⟨by simp [otaLoop], mods, by simp [otaLoop, consumeOta],
      by simp [otaLoop]⟩
  | succ fuel ih =>
    intro mods nr io retries k
    by_cases hm : (mods.isEmpty && !nr) = true
    · have hmods : mods = [] := by
        have h2 := hm
        simp [List.isEmpty_iff] at h2
        exact h2.1
      simp only [otaLoop]
      rw [if_pos hm]
      split
      · refine ⟨?_, [], ?_, fun _ => rfl⟩
        · intro e he
          simp at he
          subst he
          rfl
        · rw [hmods]
          simp [consumeOta]
      · refine ⟨by simp, [], ?_, fun _ => rfl⟩
        rw [hmods]
        simp [consumeOta]
    · rw [Bool.not_eq_true] at hm
      cases hit : otaIter oracle pending mods nr io k with
      | stepped ev mods2 nr2 o2 k2 =>
        have hval : otaLoop oracle pending (fuel + 1) mods nr io retries k
            = (ev ++
                 (otaLoop oracle pending fuel mods2 nr2 o2 retries k2).1,
               (otaLoop oracle pending fuel mods2 nr2 o2 retries k2).2) := by
          simp only [otaLoop]
          rw [if_neg (by simp [hm]), hit]
        have hspec := otaIter_spec oracle pending mods nr io k
        rw [hit] at hspec
        simp only [iterEvents, iterMods] at hspec
        obtain ⟨ihev, rem, ihc, ihok⟩ := ih mods2 nr2 o2 retries k2
        rw [hval]
        refine ⟨List.forall_mem_append.mpr ⟨hspec.1, ihev⟩, rem, ?_, ihok⟩
        rw [consumeOta_append, hspec.2]
        simpa using ihc
      | thrown ev mods2 nr2 io2 k2 =>
        have hspec := otaIter_spec oracle pending mods nr io k
        rw [hit] at hspec
        simp only [iterEvents, iterMods] at hspec
        have hcev : ∀ e ∈ (flashCatch FEvent.otaClose oracle io2
            retries k2).1, otaEvent e = true ∧ noModEvent e = true := by
          intro e he
          rcases flashCatch_fst FEvent.otaClose oracle io2 retries k2
            with h | h | h <;> rw [h] at he <;> simp at he <;>
            subst he <;> exact ⟨rfl, rfl⟩
        have hcons : consumeOta mods2 (flashCatch FEvent.otaClose oracle
            io2 retries k2).1 = some mods2 :=
          consumeOta_noMod _ (fun e he => (hcev e he).2) mods2
        cases hcc : (flashCatch FEvent.otaClose oracle io2 retries k2).2
          with
        | none =>
          have hval : otaLoop oracle pending (fuel + 1) mods nr io retries
              k = (ev ++ (flashCatch FEvent.otaClose oracle io2 retries
                     k2).1,
                   FlashOutcome.error, retries, k2) := by
            simp only [otaLoop]
            rw [if_neg (by simp [hm]), hit]
            dsimp only
            rw [hcc]
          rw [hval]
          refine ⟨List.forall_mem_append.mpr
            ⟨hspec.1, fun e he => (hcev e he).1⟩, mods2, ?_, ?_⟩
          · rw [consumeOta_append, hspec.2]
            simpa using hcons
          · intro h
            exact absurd h (by simp)
        | some rk =>
          have hval : otaLoop oracle pending (fuel + 1) mods nr io retries
              k = (ev ++ (flashCatch FEvent.otaClose oracle io2 retries
                     k2).1 ++
                   (otaLoop oracle pending fuel mods2 nr2 false rk.1
                     rk.2).1,
                   (otaLoop oracle pending fuel mods2 nr2 false rk.1
                     rk.2).2) := by
            simp only [otaLoop]
            rw [if_neg (by simp [hm]), hit]
            dsimp only
            rw [hcc]
          obtain ⟨ihev, rem, ihc, ihok⟩ := ih mods2 nr2 false rk.1 rk.2
          rw [hval]
          refine ⟨?_, rem, ?_, ihok⟩
          · exact List.forall_mem_append.mpr
              ⟨List.forall_mem_append.mpr
                ⟨hspec.1, fun e he => (hcev e he).1⟩, ihev⟩
          · rw [consumeOta_append, consumeOta_append, hspec.2]
            simp [hcons, ihc]

/-- C5: for every device and module list, the flasher's trace is a
direct-phase prefix followed by an update-request suffix; within each
partition every write, policy skip or flash attempt targets the first
module of the partition whose processing has not yet completed, in input
order, resuming there after a failed attempt with retries remaining; an ok
outcome leaves no module of either partition unprocessed; any
update-request attempt happens only after the whole direct partition was
processed; and when no direct module is skipped by the encrypted-module
policy, an ok outcome of a nonempty direct phase includes a successful
final reset before the update-request suffix. -/
theorem c5_direct_before_ota (platformId : Nat)
    (enc : List (ModuleType × Nat)) (canFlash : Module → Bool)
    (canWrite : StorageType → Bool) (oracle pending : Nat → Bool)
    (modules : List Module) (maxRetries : Nat) :
    ∃ es1 es2,
      (runFlasher platformId enc canFlash canWrite oracle pending modules
        maxRetries).1 = es1 ++ es2 ∧
      (∀ e ∈ es1, directEvent e = true) ∧
      (∀ e ∈ es2, otaEvent e = true) ∧
      (∃ rem, consumeDirect (partitionModules canFlash canWrite
          (deviceModules platformId modules)).1 es1 = some rem ∧
        ((runFlasher platformId enc canFlash canWrite oracle pending
          modules maxRetries).2 = FlashOutcome.ok → rem = [])) ∧
      (∃ rem2, consumeOta (partitionModules canFlash canWrite
          (deviceModules platformId modules)).2 es2 = some rem2 ∧
        ((runFlasher platformId enc canFlash canWrite oracle pending
          modules maxRetries).2 = FlashOutcome.ok → rem2 = [])) ∧
      ((∃ e ∈ es2, otaAttempt e = true) →
        consumeDirect (partitionModules canFlash canWrite
          (deviceModules platformId modules)).1 es1 = some []) ∧
      ((∀ m ∈ (partitionModules canFlash canWrite
          (deviceModules platformId modules)).1, encSkip enc m = false) →
        (partitionModules canFlash canWrite
          (deviceModules platformId modules)).1 ≠ [] →
        (runFlasher platformId enc canFlash canWrite oracle pending
          modules maxRetries).2 = FlashOutcome.ok →
        FEvent.devReset true ∈ es1) := by
  simp only [deviceModules]
  by_cases hempty : (modules.filter
      (fun m => m.platformId == platformId)).isEmpty = true
  · have hrun : runFlasher platformId enc canFlash canWrite oracle pending
        modules maxRetries = ([], FlashOutcome.ok) := by
      simp only [runFlasher]
      rw [if_pos hempty]
    have hdp : (partitionModules canFlash canWrite (modules.filter
        (fun m => m.platformId == platformId))).1 = [] := by
      simp [partitionModules, List.isEmpty_iff.mp hempty]
    have hop : (partitionModules canFlash canWrite (modules.filter
        (fun m => m.platformId == platformId))).2 = [] := by
      simp [partitionModules, List.isEmpty_iff.mp hempty]
    refine ⟨[], [], by rw [hrun]; rfl, by simp, by simp,
      ⟨[], by rw [hdp]; rfl, fun _ => rfl⟩, ⟨[], by rw [hop]; rfl, fun _ => rfl⟩,
      ?_, ?_⟩
    · intro h
      rcases h with ⟨e, he, -⟩
      simp at he
    · intro _ hne _
      exact absurd hdp hne
  · rw [Bool.not_eq_true] at hempty
    by_cases hcd : (partitionModules canFlash canWrite (modules.filter
        (fun m => m.platformId == platformId))).1.isEmpty = true
    · -- empty direct partition
      have hdp : (partitionModules canFlash canWrite (modules.filter
          (fun m => m.platformId == platformId))).1 = [] :=
        List.isEmpty_iff.mp hcd
      by_cases hoe : (partitionModules canFlash canWrite (modules.filter
          (fun m => m.platformId == platformId))).2.isEmpty = true
      · have hop : (partitionModules canFlash canWrite (modules.filter
            (fun m => m.platformId == platformId))).2 = [] :=
          List.isEmpty_iff.mp hoe
        have hrun : runFlasher platformId enc canFlash canWrite oracle
            pending modules maxRetries = ([], FlashOutcome.ok) := by
          simp only [runFlasher]
          rw [if_neg (by simp [hempty]),
            if_neg (show ¬((!(partitionModules canFlash canWrite
              (modules.filter (fun m => m.platformId ==
                platformId))).1.isEmpty) = true) by simp [hcd]),
            if_neg (not_not_intro rfl),
            if_neg (show ¬((!(partitionModules canFlash canWrite
              (modules.filter (fun m => m.platformId ==
                platformId))).2.isEmpty) = true) by simp [hoe])]
        refine ⟨[], [], by rw [hrun]; rfl, by simp, by simp,
          ⟨[], by rw [hdp]; rfl, fun _ => rfl⟩,
          ⟨[], by rw [hop]; rfl, fun _ => rfl⟩, ?_, ?_⟩
        · intro h
          rcases h with ⟨e, he, -⟩
          simp at he
        · intro _ hne _
          exact absurd hdp hne
      · rw [Bool.not_eq_true] at hoe
        have hrun : runFlasher platformId enc canFlash canWrite oracle
            pending modules maxRetries =
            ([] ++ (otaLoop oracle pending (loopFuel maxRetries
               (partitionModules canFlash canWrite (modules.filter
                 (fun m => m.platformId == platformId))).2)
               (partitionModules canFlash canWrite (modules.filter
                 (fun m => m.platformId == platformId))).2 false false
               maxRetries 0).1,
             (otaLoop oracle pending (loopFuel maxRetries
               (partitionModules canFlash canWrite (modules.filter
                 (fun m => m.platformId == platformId))).2)
               (partitionModules canFlash canWrite (modules.filter
                 (fun m => m.platformId == platformId))).2 false false
               maxRetries 0).2.1) := by
          simp only [runFlasher]
          rw [if_neg (by simp [hempty]),
            if_neg (show ¬((!(partitionModules canFlash canWrite
              (modules.filter (fun m => m.platformId ==
                platformId))).1.isEmpty) = true) by simp [hcd]),
            if_neg (not_not_intro rfl),
            if_pos (show (!(partitionModules canFlash canWrite
              (modules.filter (fun m => m.platformId ==
                platformId))).2.isEmpty) = true by simp [hoe])]
        obtain ⟨hOev, rem2, hOc, hOok⟩ := otaLoop_spec oracle pending
          (loopFuel maxRetries (partitionModules canFlash canWrite
            (modules.filter (fun m => m.platformId == platformId))).2)
          (partitionModules canFlash canWrite (modules.filter
            (fun m => m.platformId == platformId))).2 false false
          maxRetries 0
        refine ⟨[], (otaLoop oracle pending (loopFuel maxRetries
            (partitionModules canFlash canWrite (modules.filter
              (fun m => m.platformId == platformId))).2)
            (partitionModules canFlash canWrite (modules.filter
              (fun m => m.platformId == platformId))).2 false false
            maxRetries 0).1,
          by rw [hrun], by simp, hOev,
          ⟨[], by rw [hdp]; rfl, fun _ => rfl⟩, ⟨rem2, hOc, ?_⟩, ?_, ?_⟩
        · intro h
          rw [hrun] at h
          exact hOok h
        · intro _
          rw [hdp]
          rfl
        · intro _ hne _
          exact absurd hdp hne
    · rw [Bool.not_eq_true] at hcd
      -- nonempty direct partition: the direct loop runs
      obtain ⟨hFev, rem, hFc, hFok⟩ := flashLoop_direct enc oracle
        (loopFuel maxRetries (partitionModules canFlash canWrite
          (modules.filter (fun m => m.platformId == platformId))).1)
        (partitionModules canFlash canWrite (modules.filter
          (fun m => m.platformId == platformId))).1 false false
        maxRetries 0
      have hentry : ¬((partitionModules canFlash canWrite (modules.filter
          (fun m => m.platformId == platformId))).1 = [] ∧ false = false) := by
        intro hp
        rw [hp.1] at hcd
        simp at hcd
      by_cases hok1 : (flashLoop enc oracle (loopFuel maxRetries
          (partitionModules canFlash canWrite (modules.filter
            (fun m => m.platformId == platformId))).1)
          (partitionModules canFlash canWrite (modules.filter
            (fun m => m.platformId == platformId))).1 false false
          maxRetries 0).2.1 = FlashOutcome.ok
      · by_cases hoe : (partitionModules canFlash canWrite (modules.filter
            (fun m => m.platformId == platformId))).2.isEmpty = true
        · have hop : (partitionModules canFlash canWrite (modules.filter
              (fun m => m.platformId == platformId))).2 = [] :=
            List.isEmpty_iff.mp hoe
          have hrun : runFlasher platformId enc canFlash canWrite oracle
              pending modules maxRetries =
              ((flashLoop enc oracle (loopFuel maxRetries
                 (partitionModules canFlash canWrite (modules.filter
                   (fun m => m.platformId == platformId))).1)
                 (partitionModules canFlash canWrite (modules.filter
                   (fun m => m.platformId == platformId))).1 false false
                 maxRetries 0).1, FlashOutcome.ok) := by
            simp only [runFlasher]
            rw [if_neg (by simp [hempty]),
              if_pos (show (!(partitionModules canFlash canWrite
                (modules.filter (fun m => m.platformId ==
                  platformId))).1.isEmpty) = true by simp [hcd]),
              if_neg (not_not_intro hok1),
              if_neg (show ¬((!(partitionModules canFlash canWrite
                (modules.filter (fun m => m.platformId ==
                  platformId))).2.isEmpty) = true) by simp [hoe])]
          refine ⟨(flashLoop enc oracle (loopFuel maxRetries
              (partitionModules canFlash canWrite (modules.filter
                (fun m => m.platformId == platformId))).1)
              (partitionModules canFlash canWrite (modules.filter
                (fun m => m.platformId == platformId))).1 false false
              maxRetries 0).1, [],
            by rw [hrun]; simp, hFev, by simp,
            ⟨rem, hFc, fun _ => hFok hok1⟩,
            ⟨[], by rw [hop]; rfl, fun _ => rfl⟩, ?_, ?_⟩
          · intro h
            rcases h with ⟨e, he, -⟩
            simp at he
          · intro hns hne _
            exact flashLoop_reset enc oracle (loopFuel maxRetries
              (partitionModules canFlash canWrite (modules.filter
                (fun m => m.platformId == platformId))).1)
              (partitionModules canFlash canWrite (modules.filter
                (fun m => m.platformId == platformId))).1 false false
              maxRetries 0 hns hentry hok1
        · rw [Bool.not_eq_true] at hoe
          have hrun : runFlasher platformId enc canFlash canWrite oracle
              pending modules maxRetries =
              ((flashLoop enc oracle (loopFuel maxRetries
                 (partitionModules canFlash canWrite (modules.filter
                   (fun m => m.platformId == platformId))).1)
                 (partitionModules canFlash canWrite (modules.filter
                   (fun m => m.platformId == platformId))).1 false false
                 maxRetries 0).1 ++
               (otaLoop oracle pending (loopFuel (flashLoop enc oracle
                   (loopFuel maxRetries (partitionModules canFlash
                     canWrite (modules.filter (fun m => m.platformId ==
                       platformId))).1)
                   (partitionModules canFlash canWrite (modules.filter
                     (fun m => m.platformId == platformId))).1 false false
                   maxRetries 0).2.2.1
                 (partitionModules canFlash canWrite (modules.filter
                   (fun m => m.platformId == platformId))).2)
                 (partitionModules canFlash canWrite (modules.filter
                   (fun m => m.platformId == platformId))).2 false false
                 (flashLoop enc oracle (loopFuel maxRetries
                   (partitionModules canFlash canWrite (modules.filter
                     (fun m => m.platformId == platformId))).1)
                   (partitionModules canFlash canWrite (modules.filter
                     (fun m => m.platformId == platformId))).1 false false
                   maxRetries 0).2.2.1
                 (flashLoop enc oracle (loopFuel maxRetries
                   (partitionModules canFlash canWrite (modules.filter
                     (fun m => m.platformId == platformId))).1)
                   (partitionModules canFlash canWrite (modules.filter
                     (fun m => m.platformId == platformId))).1 false false
                   maxRetries 0).2.2.2).1,
               (otaLoop oracle pending (loopFuel (flashLoop enc oracle
                   (loopFuel maxRetries (partitionModules canFlash
                     canWrite (modules.filter (fun m => m.platformId ==
                       platformId))).1)
                   (partitionModules canFlash canWrite (modules.filter
                     (fun m => m.platformId == platformId))).1 false false
                   maxRetries 0).2.2.1
                 (partitionModules canFlash canWrite (modules.filter
                   (fun m => m.platformId == platformId))).2)
                 (partitionModules canFlash canWrite (modules.filter
                   (fun m => m.platformId == platformId))).2 false false
                 (flashLoop enc oracle (loopFuel maxRetries
                   (partitionModules canFlash canWrite (modules.filter
                     (fun m => m.platformId == platformId))).1)
                   (partitionModules canFlash canWrite (modules.filter
                     (fun m => m.platformId == platformId))).1 false false
                   maxRetries 0).2.2.1
                 (flashLoop enc oracle (loopFuel maxRetries
                   (partitionModules canFlash canWrite (modules.filter
                     (fun m => m.platformId == platformId))).1)
                   (partitionModules canFlash canWrite (modules.filter
                     (fun m => m.platformId == platformId))).1 false false
                   maxRetries 0).2.2.2).2.1) := by
            simp only [runFlasher]
            rw [if_neg (by simp [hempty]),
              if_pos (show (!(partitionModules canFlash canWrite
                (modules.filter (fun m => m.platformId ==
                  platformId))).1.isEmpty) = true by simp [hcd]),
              if_neg (not_not_intro hok1),
              if_pos (show (!(partitionModules canFlash canWrite
                (modules.filter (fun m => m.platformId ==
                  platformId))).2.isEmpty) = true by simp [hoe])]
          obtain ⟨hOev, rem2, hOc, hOok⟩ := otaLoop_spec oracle pending
            (loopFuel (flashLoop enc oracle (loopFuel maxRetries
                (partitionModules canFlash canWrite (modules.filter
                  (fun m => m.platformId == platformId))).1)
                (partitionModules canFlash canWrite (modules.filter
                  (fun m => m.platformId == platformId))).1 false false
                maxRetries 0).2.2.1
              (partitionModules canFlash canWrite (modules.filter
                (fun m => m.platformId == platformId))).2)
            (partitionModules canFlash canWrite (modules.filter
              (fun m => m.platformId == platformId))).2 false false
            (flashLoop enc oracle (loopFuel maxRetries
              (partitionModules canFlash canWrite (modules.filter
                (fun m => m.platformId == platformId))).1)
              (partitionModules canFlash canWrite (modules.filter
                (fun m => m.platformId == platformId))).1 false false
              maxRetries 0).2.2.1
            (flashLoop enc oracle (loopFuel maxRetries
              (partitionModules canFlash canWrite (modules.filter
                (fun m => m.platformId == platformId))).1)
              (partitionModules canFlash canWrite (modules.filter
                (fun m => m.platformId == platformId))).1 false false
              maxRetries 0).2.2.2
          refine ⟨(flashLoop enc oracle (loopFuel maxRetries
              (partitionModules canFlash canWrite (modules.filter
                (fun m => m.platformId == platformId))).1)
              (partitionModules canFlash canWrite (modules.filter
                (fun m => m.platformId == platformId))).1 false false
              maxRetries 0).1,
            (otaLoop oracle pending (loopFuel (flashLoop enc oracle
                (loopFuel maxRetries (partitionModules canFlash canWrite
                  (modules.filter (fun m => m.platformId ==
                    platformId))).1)
                (partitionModules canFlash canWrite (modules.filter
                  (fun m => m.platformId == platformId))).1 false false
                maxRetries 0).2.2.1
              (partitionModules canFlash canWrite (modules.filter
                (fun m => m.platformId == platformId))).2)
              (partitionModules canFlash canWrite (modules.filter
                (fun m => m.platformId == platformId))).2 false false
              (flashLoop enc oracle (loopFuel maxRetries
                (partitionModules canFlash canWrite (modules.filter
                  (fun m => m.platformId == platformId))).1)
                (partitionModules canFlash canWrite (modules.filter
                  (fun m => m.platformId == platformId))).1 false false
                maxRetries 0).2.2.1
              (flashLoop enc oracle (loopFuel maxRetries
                (partitionModules canFlash canWrite (modules.filter
                  (fun m => m.platformId == platformId))).1)
                (partitionModules canFlash canWrite (modules.filter
                  (fun m => m.platformId == platformId))).1 false false
                maxRetries 0).2.2.2).1,
            by rw [hrun], hFev, hOev,
            ⟨rem, hFc, fun _ => hFok hok1⟩, ⟨rem2, hOc, ?_⟩, ?_, ?_⟩
          · intro h
            rw [hrun] at h
            exact hOok h
          · intro _
            exact (hFok hok1) ▸ hFc
          · intro hns hne _
            exact flashLoop_reset enc oracle (loopFuel maxRetries
              (partitionModules canFlash canWrite (modules.filter
                (fun m => m.platformId == platformId))).1)
              (partitionModules canFlash canWrite (modules.filter
                (fun m => m.platformId == platformId))).1 false false
              maxRetries 0 hns hentry hok1
      · have hrun : runFlasher platformId enc canFlash canWrite oracle
            pending modules maxRetries =
            ((flashLoop enc oracle (loopFuel maxRetries
               (partitionModules canFlash canWrite (modules.filter
                 (fun m => m.platformId == platformId))).1)
               (partitionModules canFlash canWrite (modules.filter
                 (fun m => m.platformId == platformId))).1 false false
               maxRetries 0).1,
             (flashLoop enc oracle (loopFuel maxRetries
               (partitionModules canFlash canWrite (modules.filter
                 (fun m => m.platformId == platformId))).1)
               (partitionModules canFlash canWrite (modules.filter
                 (fun m => m.platformId == platformId))).1 false false
               maxRetries 0).2.1) := by
          simp only [runFlasher]
          rw [if_neg (by simp [hempty]),
            if_pos (show (!(partitionModules canFlash canWrite
              (modules.filter (fun m => m.platformId ==
                platformId))).1.isEmpty) = true by simp [hcd]),
            if_pos hok1]
        refine ⟨(flashLoop enc oracle (loopFuel maxRetries
            (partitionModules canFlash canWrite (modules.filter
              (fun m => m.platformId == platformId))).1)
            (partitionModules canFlash canWrite (modules.filter
              (fun m => m.platformId == platformId))).1 false false
            maxRetries 0).1, [],
          by rw [hrun]; simp, hFev, by simp, ⟨rem, hFc, ?_⟩,
          ⟨(partitionModules canFlash canWrite (modules.filter
            (fun m => m.platformId == platformId))).2, rfl, ?_⟩, ?_, ?_⟩
        · intro h
          rw [hrun] at h
          exact hFok h
        · intro h
          rw [hrun] at h
          exact absurd h hok1
        · intro h
          rcases h with ⟨e, he, -⟩
          simp at he
        · intro _ _ h
          rw [hrun] at h
          exact absurd h hok1

/-- C5 counterexample: (a) on a p2 (platform 32, rtl872x encrypted-module
policy) an unencrypted bootloader sits in the direct partition but is
policy-skipped: it is never written and the direct phase ends without any
reset, yet the run reports success; (b) over update requests, a module
whose flash succeeded with resetPending set is attempted a second time
after the subsequent close fails, so the retry does not resume from the
first not-yet-successfully-written module. -/
theorem c5_counterexample_skip_and_reflash :
    ((runFlasher 32 p2EncryptedModules (fun _ => true) (fun _ => true)
        (fun _ => true) (fun _ => false) [exP2Bootloader] 2).2 =
      FlashOutcome.ok ∧
     (partitionModules (fun _ => true) (fun _ => true)
        (deviceModules 32 [exP2Bootloader])).1 = [exP2Bootloader] ∧
     (runFlasher 32 p2EncryptedModules (fun _ => true) (fun _ => true)
        (fun _ => true) (fun _ => false) [exP2Bootloader] 2).1.all
       (fun e => match e with
         | FEvent.write _ _ => false
         | FEvent.devReset _ => false
         | _ => true) = true ∧
     FEvent.skipEncrypted exP2Bootloader ∈
       (runFlasher 32 p2EncryptedModules (fun _ => true) (fun _ => true)
         (fun _ => true) (fun _ => false) [exP2Bootloader] 2).1) ∧
    ((runFlasher 13 [] (fun _ => false) (fun _ => true)
        (fun k => !(k == 3)) (fun k => k == 2) [exUserPartTinker] 1).2 =
      FlashOutcome.ok ∧
     FEvent.otaFlash exUserPartTinker true true false ∈
       (runFlasher 13 [] (fun _ => false) (fun _ => true)
         (fun k => !(k == 3)) (fun k => k == 2) [exUserPartTinker] 1).1 ∧
     FEvent.otaFlash exUserPartTinker true false true ∈
       (runFlasher 13 [] (fun _ => false) (fun _ => true)
         (fun k => !(k == 3)) (fun k => k == 2) [exUserPartTinker] 1).1 ∧
     (runFlasher 13 [] (fun _ => false) (fun _ => true)
        (fun k => !(k == 3)) (fun k => k == 2)
        [exUserPartTinker] 1).1.countP otaAttempt = 2) := by
  decide

/-- Witness for C5: the phase and order theorem instantiated at the
update-request retry scenario. -/
theorem c5_direct_before_ota_witness :
    ∃ es1 es2,
      (runFlasher 13 [] (fun _ => false) (fun _ => true)
        (fun k => !(k == 3)) (fun k => k == 2) [exUserPartTinker] 1).1 =
        es1 ++ es2 ∧
      (∀ e ∈ es1, directEvent e = true) ∧
      (∀ e ∈ es2, otaEvent e = true) ∧
      (∃ rem, consumeDirect (partitionModules (fun _ => false)
          (fun _ => true) (deviceModules 13 [exUserPartTinker])).1 es1 =
          some rem ∧
        ((runFlasher 13 [] (fun _ => false) (fun _ => true)
          (fun k => !(k == 3)) (fun k => k == 2) [exUserPartTinker] 1).2 =
          FlashOutcome.ok → rem = [])) ∧
      (∃ rem2, consumeOta (partitionModules (fun _ => false)
          (fun _ => true) (deviceModules 13 [exUserPartTinker])).2 es2 =
          some rem2 ∧
        ((runFlasher 13 [] (fun _ => false) (fun _ => true)
          (fun k => !(k == 3)) (fun k => k == 2) [exUserPartTinker] 1).2 =
          FlashOutcome.ok → rem2 = [])) ∧
      ((∃ e ∈ es2, otaAttempt e = true) →
        consumeDirect (partitionModules (fun _ => false) (fun _ => true)
          (deviceModules 13 [exUserPartTinker])).1 es1 = some []) ∧
      ((∀ m ∈ (partitionModules (fun _ => false) (fun _ => true)
          (deviceModules 13 [exUserPartTinker])).1,
          encSkip [] m = false) →
        (partitionModules (fun _ => false) (fun _ => true)
          (deviceModules 13 [exUserPartTinker])).1 ≠ [] →
        (runFlasher 13 [] (fun _ => false) (fun _ => true)
          (fun k => !(k == 3)) (fun k => k == 2) [exUserPartTinker] 1).2 =
          FlashOutcome.ok →
        FEvent.devReset true ∈ es1) :=
  c5_direct_before_ota 13 [] (fun _ => false) (fun _ => true)
    (fun k => !(k == 3)) (fun k => k == 2) [exUserPartTinker] 1

/-- Witness for C9: with the default options both SUPPRESS-GO-AHEAD requests
are accepted by the server (DO 3, WILL 3, WILL 1), negotiation completes and
connect proceeds to prompt handling. -/
theorem c9_connect_witness :
    (let o : ConnOpts := { enableEcho := true, suppressGoAhead := true }
     let incoming := [(TelnetCmd.doCmd, 3), (TelnetCmd.will, 3),
       (TelnetCmd.will, 1)]
     negotiatingOptions (runNegotiation o incoming) = false ∧
     connectAfterNegotiation o incoming = ConnectPhase.promptHandling) := by
  refine ⟨by decide, ?_⟩
  exact ((c9_connect_requires_suppress_go_ahead
    { enableEcho := true, suppressGoAhead := true }
    [(TelnetCmd.doCmd, 3), (TelnetCmd.will, 3), (TelnetCmd.will, 1)]
    (by decide)).1).mpr ⟨by decide, by decide⟩

end DeviceOsFlashUtil
